import Mathlib
/-!
# Verification of the VRP core: skills feature and vicinity clustering engine

This development is a shallow embedding of the core of a Vehicle Routing
Problem solver:

* the job-vehicle skills feature
  (`src/vrp-core/src/construction/features/skills.rs`), and
* the vicinity clustering engine
  (`src/vrp-core/src/construction/clustering/vicinity/estimations.rs`).

Machine floats (`f64`) are modelled as rationals `ℚ`: the algorithms use only
ring operations, `min`/`max` and order comparisons, all of which agree with
real arithmetic on ℚ.  `HashSet`/`HashMap` values are modelled as lists in a
fixed iteration order; the clustering engine consumes them only through
membership, lookup, removal and in-order iteration.  Job equality in the
source is `Arc` pointer identity; it is modelled by a numeric identity tag
attached to every job (`Job.tag`), and synthesized jobs — which the source
never compares for identity — carry the tag 0 of a fresh allocation.

Panics (`expect`/`unwrap`) in the source are contract violations; each such
place is modelled by a total default that is marked by a comment.
-/
/-- An opaque location identifier resolved by the Transport Oracle. -/
abbrev Location := Nat
/-- A travel profile identifier. -/
abbrev Profile := Nat
/-- Durations are real-valued; modelled as ℚ. -/
abbrev Duration := ℚ
/-- Distances are real-valued; modelled as ℚ. -/
abbrev Distance := ℚ
/-- Timestamps are real-valued; modelled as ℚ. -/
abbrev Timestamp := ℚ
/-- A violation code: a stable integer identifying a feasibility failure
class. -/
abbrev ViolationCode := Nat
/-- Modelled from the spec: `compare_floats` (from the utils module, whose
source is not part of this corpus) is a total float comparison with the
NaN-equal fallback; on ℚ it is the standard total order comparison. -/
def compare_floats (a b : ℚ) : Ordering :=
  if a < b then Ordering.lt else if b < a then Ordering.gt else Ordering.eq
/-- A time window over continuous time.  The source field `end` is a Lean
keyword and is called `stop` here. -/
structure TimeWindow where
  start : ℚ
  stop : ℚ
deriving DecidableEq
/-- Modelled from the spec: `TimeWindow::duration` (models module, source not
in this corpus): the length of the window. -/
def TimeWindow.duration (tw : TimeWindow) : ℚ := tw.stop - tw.start
/-- Modelled from the spec: `TimeWindow::overlapping` (models module, source
not in this corpus) — "operations: `overlapping(other) → Option<TimeWindow>`
(intersection if non-empty)" over half-open intervals `[start, end)`. -/
def TimeWindow.overlapping (a b : TimeWindow) : Option TimeWindow :=
  if max a.start b.start < min a.stop b.stop then
    some ⟨max a.start b.start, min a.stop b.stop⟩
  else
    none
/-- A time span: either a concrete window or a recurring offset. -/
inductive TimeSpan where
  | Window (tw : TimeWindow) : TimeSpan
  | Offset (start : ℚ) (stop : ℚ) : TimeSpan
deriving DecidableEq
/-- Modelled from the spec: `TimeSpan::as_time_window` (models module, source
not in this corpus) yields a `TimeWindow` only for the concrete variant. -/
def TimeSpan.as_time_window : TimeSpan → Option TimeWindow
  | TimeSpan.Window tw => some tw
  | TimeSpan.Offset _ _ => none
/-- A place of a single job: optional location, service duration and time
spans. -/
structure Place where
  location : Option Location
  duration : ℚ
  times : List TimeSpan
deriving DecidableEq
/-- A job skills limitation for a vehicle (`skills.rs`).  A `HashSet<String>`
is modelled as a list of strings consumed through membership only. -/
structure JobSkills where
  all_of : Option (List String)
  one_of : Option (List String)
  none_of : Option (List String)
/-- Per-visit record of a clustered job, generic in the job type to break the
mutual recursion between jobs and their cluster dimension. -/
structure ClusterInfoG (J : Type) where
  job : J
  service_time : ℚ
  place_idx : Nat
  forward : ℚ × ℚ
  backward : ℚ × ℚ
/-- The dimension bag carried by a job, generic in the job type.  Only the
keys consumed by the verified components are modelled: the *cluster-info*
list and the *skills* key. -/
structure DimensG (J : Type) where
  cluster : Option (List (ClusterInfoG J))
  skills : Option JobSkills
/-- A (single) job: an identity tag modelling `Arc` pointer identity, places
and a dimension bag.  The clustering engine accesses jobs through
`Job::to_single`, so the `Single` payload is inlined. -/
inductive Job where
  | mk (tag : Nat) (places : List Place) (dimens : DimensG Job) : Job
/-- Per-visit record of a clustered job (`ClusterInfo` in `vicinity/mod.rs`):
`forward`/`backward` are `(distance, duration)` pairs. -/
abbrev ClusterInfo := ClusterInfoG Job
/-- The dimension bag of a job. -/
abbrev Dimens := DimensG Job
/-- The identity tag of a job (models `Arc` pointer identity). -/
def Job.tag : Job → Nat
  | Job.mk t _ _ => t
/-- The places of a job (`Single::places`). -/
def Job.places : Job → List Place
  | Job.mk _ p _ => p
/-- The dimension bag of a job (`Single::dimens`). -/
def Job.dimens : Job → Dimens
  | Job.mk _ _ d => d
/-- Job equality: the source's `PartialEq`/`Hash` for `Job` compare `Arc`
pointers; two jobs are identical iff they carry the same tag. -/
def job_eq (a b : Job) : Bool := a.tag == b.tag
/-- `HashSet<Job>::contains`, on the list model of a set of jobs. -/
def contains_job (s : List Job) (j : Job) : Bool := s.any (fun x => job_eq x j)
/-- `HashMap<Job, V>::get`, on the association-list model of a map keyed by
job identity. -/
def lookup_job {V : Type} (m : List (Job × V)) (j : Job) : Option V :=
  (m.find? (fun e => job_eq e.1 j)).map (fun e => e.2)
/-- A constraint violation: code plus the stopped flag.  Modelled from the
spec: `ConstraintViolation::fail(code)` produces `{ code, stopped := true }`. -/
structure ConstraintViolation where
  code : ViolationCode
  stopped : Bool
deriving DecidableEq
/-- A vehicle, reduced to the skills dimension consumed by the skills
feature; `get_vehicle_skills` reads this field. -/
structure Vehicle where
  skills : Option (List String)
/-- An actor: the (driver, vehicle) pair, reduced to its vehicle. -/
structure Actor where
  vehicle : Vehicle
/-- A route, reduced to its actor. -/
structure Route where
  actor : Actor
/-- A route context, reduced to its route (`route_ctx.route()`). -/
structure RouteContext where
  route : Route
/-- A move context: a route-level or activity-level candidate insertion.  The
activity payload is irrelevant to the skills feature and elided. -/
inductive MoveContext where
  | Route (route_ctx : RouteContext) (job : Job) : MoveContext
  | Activity : MoveContext
/-- `check_all_of` from `skills.rs`: the vehicle must have all of the job's
`all_of` skills; `HashSet::is_subset` is membership-wise inclusion. -/
def check_all_of (job_skills : JobSkills) (vehicle_skills : Option (List String)) : Bool :=
  match job_skills.all_of, vehicle_skills with
  | some js, some vs => js.all (fun s => vs.contains s)
  | some js, none => js.isEmpty
  | _, _ => true
/-- `check_one_of` from `skills.rs`: the vehicle must have at least one of
the job's `one_of` skills. -/
def check_one_of (job_skills : JobSkills) (vehicle_skills : Option (List String)) : Bool :=
  match job_skills.one_of, vehicle_skills with
  | some js, some vs => js.any (fun s => vs.contains s)
  | some js, none => js.isEmpty
  | _, _ => true
/-- `check_none_of` from `skills.rs`: the vehicle must have none of the job's
`none_of` skills; `HashSet::is_disjoint` is empty intersection. -/
def check_none_of (job_skills : JobSkills) (vehicle_skills : Option (List String)) : Bool :=
  match job_skills.none_of, vehicle_skills with
  | some js, some vs => js.all (fun s => !vs.contains s)
  | _, _ => true
/-- `SkillsConstraint::evaluate` from `skills.rs`.  The aspects are modelled
by reading job skills from the job's dimension bag, vehicle skills from the
vehicle, and taking the feature's violation code as the argument `code`. -/
def skills_evaluate (code : ViolationCode) (move_ctx : MoveContext) : Option ConstraintViolation :=
  match move_ctx with
  | MoveContext.Route route_ctx job =>
    match job.dimens.skills with
    | some job_skills =>
      let vehicle_skills := route_ctx.route.actor.vehicle.skills
      let is_ok := check_all_of job_skills vehicle_skills
        && check_one_of job_skills vehicle_skills
        && check_none_of job_skills vehicle_skills
      if is_ok then none else some ⟨code, true⟩
    | none => none
  | MoveContext.Activity => none
/-- The `check_skill_sets` closure inside `SkillsConstraint::merge`. -/
def check_skill_sets (source_set candidate_set : Option (List String)) : Bool :=
  match source_set, candidate_set with
  | some _, none => true
  | none, none => true
  | none, some _ => false
  | some source_skills, some candidate_skills => candidate_skills.all (fun s => source_skills.contains s)
/-- `SkillsConstraint::merge` from `skills.rs`. -/
def skills_merge (code : ViolationCode) (source candidate : Job) : Except ViolationCode Job :=
  let source_skills := source.dimens.skills
  let candidate_skills := candidate.dimens.skills
  let has_comparable_skills :=
    match source_skills, candidate_skills with
    | some _, none => true
    | none, none => true
    | none, some _ => false
    | some ss, some cs =>
      check_skill_sets ss.all_of cs.all_of
        && check_skill_sets ss.one_of cs.one_of
        && check_skill_sets ss.none_of cs.none_of
  if has_comparable_skills then Except.ok source else Except.error code
/-! ## Claims about the skills feature -/
/-- The claim's per-set comparison rule, following the spec's words: for each
skill set, the candidate's set must be a subset of the source's homonymous
set; an absent candidate set is always acceptable, a present candidate set
with an absent source set is rejected. -/
def spec_skill_subset_rule (source_set candidate_set : Option (List String)) : Prop :=
  match source_set, candidate_set with
  | _, none => True
  | none, some _ => False
  | some s, some c => ∀ x ∈ c, x ∈ s
/-- The claim's acceptance condition for `merge`, following the spec's words,
with each of the three sets read through an absent skills dimension as
absent. -/
def skills_claim_cond (source candidate : Job) : Prop :=
  spec_skill_subset_rule (source.dimens.skills.bind JobSkills.all_of)
      (candidate.dimens.skills.bind JobSkills.all_of)
    ∧ spec_skill_subset_rule (source.dimens.skills.bind JobSkills.one_of)
      (candidate.dimens.skills.bind JobSkills.one_of)
    ∧ spec_skill_subset_rule (source.dimens.skills.bind JobSkills.none_of)
      (candidate.dimens.skills.bind JobSkills.none_of)
/-- A source job with no skills dimension. -/
def c4_source : Job := Job.mk 0 [] ⟨none, none⟩
/-- A candidate job with a skills dimension all of whose three sets are
absent. -/
def c4_candidate : Job := Job.mk 1 [] ⟨none, some ⟨none, none, none⟩⟩
/-- The acceptance condition actually implemented by `merge`: a candidate
without a skills dimension is always absorbed; a candidate with a skills
dimension requires the source to have one too — even if all of the
candidate's three sets are absent — and then each of the three sets must pass
the per-set subset rule. -/
def skills_merge_cond (source candidate : Job) : Prop :=
  match source.dimens.skills, candidate.dimens.skills with
  | _, none => True
  | none, some _ => False
  | some ss, some cs =>
    spec_skill_subset_rule ss.all_of cs.all_of
      ∧ spec_skill_subset_rule ss.one_of cs.one_of
      ∧ spec_skill_subset_rule ss.none_of cs.none_of
/-- A job whose skills dimension carries `one_of = Some(∅)`. -/
def c5_job : Job := Job.mk 2 [] ⟨none, some ⟨none, some [], none⟩⟩
/-- A route context whose vehicle has the skill set `{"x"}`. -/
def c5_route_ctx : RouteContext := ⟨⟨⟨⟨some ["x"]⟩⟩⟩⟩
/-- A source job whose skills dimension has `all_of = {"a","b"}`. -/
def c9_source : Job := Job.mk 3 [] ⟨none, some ⟨some ["a", "b"], none, none⟩⟩
/-- A candidate job whose skills dimension has `all_of = {"a"}`. -/
def c9_candidate : Job := Job.mk 4 [] ⟨none, some ⟨some ["a"], none, none⟩⟩
/-! ## The vicinity clustering engine: data model -/
/-- The Transport Oracle: distance and duration between locations at a
departure time, per travel profile; consumed as a pure, thread-safe
function. -/
structure TransportCost where
  distance : Profile → Location → Location → Timestamp → Distance
  duration : Profile → Location → Location → Timestamp → Duration
/-- The vicinity threshold policy of `ClusterConfig`. -/
structure ThresholdPolicy where
  moving_duration : ℚ
  moving_distance : ℚ
  min_shared_time : Option ℚ
/-- The service time policy of `ClusterConfig`. -/
inductive ServiceTimePolicy where
  | Original : ServiceTimePolicy
  | Multiplier (multiplier : ℚ) : ServiceTimePolicy
  | Fixed (service_time : ℚ) : ServiceTimePolicy
/-- The visiting policy of `ClusterConfig`. -/
inductive VisitPolicy where
  | Return : VisitPolicy
  | ClosedContinuation : VisitPolicy
  | OpenContinuation : VisitPolicy
deriving DecidableEq
/-- `matches!(v, VisitPolicy::Return)` from the source. -/
def VisitPolicy.is_return : VisitPolicy → Bool
  | VisitPolicy.Return => true
  | _ => false
/-- The building policy of `ClusterConfig`: the caller-supplied global and
local ordering functions, the cluster acceptance threshold predicate, and the
smallest allowed time window. -/
structure BuilderPolicy where
  ordering_global : (Job × List Job) → (Job × List Job) → Ordering
  ordering_local : ClusterInfo → ClusterInfo → Ordering
  threshold : Job → Bool
  smallest_time_window : Option ℚ
/-- The vicinity clustering configuration. -/
structure ClusterConfig where
  profile : Profile
  threshold : ThresholdPolicy
  visiting : VisitPolicy
  service_time : ServiceTimePolicy
  building : BuilderPolicy
/-- The externally supplied insertion checker. -/
abbrev CheckInsertionFn := Job → Except ViolationCode Unit
/-- Modelled from the spec: the constraint pipeline (its source is not in
this corpus) is consumed by the clustering engine only through
`merge_constrained`, which applies each feature's merge in order and returns
the merged job or the first failing feature's code; it is represented here by
that merge function. -/
abbrev ConstraintPipeline := Job → Job → Except ViolationCode Job
/-- A place index into a job's places. -/
abbrev PlaceIndex := Nat
/-- `(PlaceIndex, Location, Duration, Vec<TimeWindow>)` from the source. -/
abbrev PlaceInfo := PlaceIndex × Location × Duration × List TimeWindow
/-- The reachability flag of a dissimilarity. -/
abbrev Reachable := Bool
/-- `(Reachable, PlaceIndex, ClusterInfo)` from the source. -/
abbrev DissimilarityInfo := Reachable × PlaceIndex × ClusterInfo
/-- `HashMap<Job, Vec<DissimilarityInfo>>`, in iteration order. -/
abbrev DissimilarityIndex := List (Job × List DissimilarityInfo)
/-- `HashMap<Job, DissimilarityIndex>`, in iteration order. -/
abbrev Estimates := List (Job × DissimilarityIndex)
/-! ## The vicinity clustering engine: dissimilarities -/
/-- `filter_times` from `estimations.rs`. -/
def filter_times (times : List TimeSpan) : List TimeWindow :=
  times.filterMap TimeSpan.as_time_window
/-- `map_place` from `estimations.rs`. -/
def map_place (place_data : PlaceIndex × Place) : Option PlaceInfo :=
  (place_data.2.location).map
    (fun location => (place_data.1, location, place_data.2.duration, filter_times place_data.2.times))
/-- `get_dissimilarities` from `estimations.rs`. -/
def get_dissimilarities (outer inner : Job) (transport : TransportCost)
    (config : ClusterConfig) : List DissimilarityInfo :=
  (outer.places.enum.filterMap map_place).flatMap (fun outer_place_info =>
    (inner.places.enum.filterMap map_place).filterMap (fun inner_place_info =>
      let outer_place_idx := outer_place_info.1
      let outer_loc := outer_place_info.2.1
      let outer_times := outer_place_info.2.2.2
      let inner_place_idx := inner_place_info.1
      let inner_loc := inner_place_info.2.1
      let inner_duration := inner_place_info.2.2.1
      let inner_times := inner_place_info.2.2.2
      let shared_time := ((outer_times.flatMap (fun outer_time =>
        inner_times.filterMap (fun inner_time =>
          (outer_time.overlapping inner_time).map TimeWindow.duration))).max?).getD 0
      if shared_time > (config.threshold.min_shared_time.getD 0) then
        let departure : Timestamp := 0
        let fwd_distance := transport.distance config.profile outer_loc inner_loc departure
        let fwd_duration := transport.duration config.profile outer_loc inner_loc departure
        let bck_distance := transport.distance config.profile inner_loc outer_loc departure
        let bck_duration := transport.duration config.profile inner_loc outer_loc departure
        let reachable := (compare_floats fwd_distance 0 != Ordering.lt)
          && (compare_floats bck_distance 0 != Ordering.lt)
        let reachable := reachable
          && decide (fwd_duration - config.threshold.moving_duration < 0)
          && decide (fwd_distance - config.threshold.moving_distance < 0)
          && decide (bck_duration - config.threshold.moving_duration < 0)
          && decide (bck_distance - config.threshold.moving_distance < 0)
        let service_time := match config.service_time with
          | ServiceTimePolicy.Original => inner_duration
          | ServiceTimePolicy.Multiplier m => inner_duration * m
          | ServiceTimePolicy.Fixed st => st
        let info : ClusterInfo := ⟨inner, service_time, inner_place_idx,
          (fwd_distance, fwd_duration), (bck_distance, bck_duration)⟩
        some (reachable, outer_place_idx, info)
      else none))
/-- `get_jobs_dissimilarities` from `estimations.rs`; the produced hash maps
are modelled in the iteration order of the input job list. -/
def get_jobs_dissimilarities (jobs : List Job) (transport : TransportCost)
    (config : ClusterConfig) : Estimates :=
  jobs.map (fun outer =>
    (outer, jobs.filterMap (fun inner =>
      if job_eq outer inner then none
      else
        let dissimilarities := get_dissimilarities outer inner transport config
        if dissimilarities.isEmpty then none else some (inner, dissimilarities))))
/-! ## The vicinity clustering engine: cluster construction -/
/-- Rust's stable `sort_by` with a comparator: `mergeSort` under the
"not greater" relation is stable and sorts ascending by `cmp`, keeping
equal-comparing elements in their input order. -/
def sort_by_cmp {α : Type} (cmp : α → α → Ordering) (l : List α) : List α :=
  l.mergeSort (fun a b => !(cmp a b == Ordering.gt))
/-- `get_cluster_info_sorted` from `estimations.rs`. -/
def get_cluster_info_sorted (center_place_idx : PlaceIndex)
    (estimate : Job × List DissimilarityInfo) (include_unreachable : Bool)
    (ordering : ClusterInfo → ClusterInfo → Ordering) : List ClusterInfo :=
  let dissimilarities := ((estimate.2.filter (fun d => d.2.1 == center_place_idx)).filter
    (fun d => include_unreachable || d.1)).map (fun d => d.2.2)
  sort_by_cmp ordering dissimilarities
/-- `create_single_job` from `estimations.rs`: a fresh `Single` with exactly
one place and the given dimension bag; the fresh `Arc` identity is never
consulted by the engine and is modelled by tag 0. -/
def create_single_job (location : Option Location) (duration : Duration)
    (times : List TimeWindow) (dimens : Dimens) : Job :=
  Job.mk 0 [⟨location, duration, times.map TimeSpan.Window⟩] dimens
/-- The cluster-info list carried by a job's cluster dimension
(`dimens().get_cluster()`), with an absent dimension read as the empty list
(the `unwrap_or(Vec::new())` of `with_cluster_dimension`; where the source
instead panics on an absent dimension, the modelling is noted at use sites). -/
def cluster_infos (j : Job) : List ClusterInfo := j.dimens.cluster.getD []

/-- `with_cluster_dimension` from `estimations.rs`: clone the cluster job and
append the visit info to its cluster dimension. -/
def with_cluster_dimension (cluster : Job) (visit_info : ClusterInfo) : Job :=
  let jobs := cluster_infos cluster ++ [visit_info]
  Job.mk 0 cluster.places ⟨some jobs, cluster.dimens.skills⟩
/-- The `return_movement` closure of `build_job_cluster`: look up the
center-to-job movement for the center place.  The final default models the
source's `expect("cannot find movement info")` panic. -/
def return_movement_fn (estimates : Estimates) (center_job : Job)
    (center_place_idx : PlaceIndex) (original_info : ClusterInfo) : (ℚ × ℚ) × (ℚ × ℚ) :=
  (((lookup_job estimates center_job).bind (fun index =>
    (lookup_job index original_info.job).bind (fun infos =>
      infos.find? (fun d =>
        d.2.1 == center_place_idx && d.2.2.place_idx == original_info.place_idx)))).map
    (fun d => (d.2.2.forward, d.2.2.backward))).getD ((0, 0), (0, 0))
/-- `finish_cluster` from `estimations.rs`: for `ClosedContinuation` add the
return duration from the last clustered job back to the center to the seed
place's duration; otherwise return the cluster unchanged.  The inner
wildcard branch models the source's `expect("empty cluster")` and
missing-place panics, both unreachable for clusters built by the engine. -/
def finish_cluster (cluster : Job) (config : ClusterConfig)
    (return_movement : ClusterInfo → (ℚ × ℚ) × (ℚ × ℚ)) : Job :=
  match config.visiting, cluster.dimens.cluster with
  | VisitPolicy.ClosedContinuation, some clustered =>
    match clustered.getLast?, cluster.places.head? with
    | some last_info, some place =>
      let backward := (return_movement last_info).2
      Job.mk 0 [⟨place.location, place.duration + backward.2, place.times⟩] cluster.dimens
    | _, _ => cluster
  | _, _ => cluster
/-- The candidate cluster time windows computed inside `try_add_job`: each
pair of a cluster window and a (forward-travel-shifted) candidate place
window is intersected, the trailing duration and the forward travel are
subtracted from the end, and intersections narrower than the smallest time
window threshold are discarded. -/
def compute_new_cluster_times (cluster_times place_times : List TimeWindow) (info : ClusterInfo)
    (cluster_place_duration cluster_last_duration time_window_threshold : ℚ) : List TimeWindow :=
  ((cluster_times.flatMap (fun cluster_time =>
    place_times.filterMap (fun place_time0 =>
      let place_time := TimeWindow.mk (place_time0.start - info.forward.2) place_time0.stop
      let overlap_time := place_time.overlapping cluster_time
      let duration := if place_time.stop < cluster_time.stop then cluster_place_duration
        else cluster_last_duration
      overlap_time.map (fun time => (time, duration))))).filterMap (fun td =>
    let stop := td.1.stop - td.2 - info.forward.2
    if stop - td.1.start < time_window_threshold then none
    else some (TimeWindow.mk td.1.start stop)))

/-- The `cluster_last_duration` computation of `try_add_job`: the duration
the last visit currently contributes — the seed place duration if there is no
visit, else that visit's own place duration plus the return-back duration
under the `Return` policy. -/
def cluster_last_duration_of (cluster : Job) (cluster_place : Place)
    (config : ClusterConfig) : ℚ :=
  match cluster.dimens.cluster.bind List.getLast? with
  | some last_info =>
    match last_info.job.places.head? with
    | some place =>
      place.duration + (if config.visiting.is_return then last_info.backward.2 else 0)
    | none => cluster_place.duration
  | none => cluster_place.duration

/-- The movement override of `try_add_job`: under the `Return` policy the
forward and backward movement are replaced by the resolver's round trip from
the center (`ClusterInfo { forward, backward, ..info }`). -/
def override_movement (config : ClusterConfig)
    (return_movement : ClusterInfo → (ℚ × ℚ) × (ℚ × ℚ)) (info0 : ClusterInfo) : ClusterInfo :=
  if config.visiting.is_return then
    let movement := return_movement info0
    { info0 with forward := movement.1, backward := movement.2 }
  else info0

/-- The movement duration added by a committed visit: round trip under
`Return`, forward only under the continuation policies. -/
def movement_duration (config : ClusterConfig) (info : ClusterInfo) : ℚ :=
  match config.visiting with
  | VisitPolicy.Return => info.forward.2 + info.backward.2
  | VisitPolicy.ClosedContinuation => info.forward.2
  | VisitPolicy.OpenContinuation => info.forward.2

/-- `try_add_job` from `estimations.rs`.  The `headD`/`getD` defaults model
the source's `expect("expect one place in cluster")` and
`expect("wrong place index")` panics. -/
def try_add_job (merge : ConstraintPipeline) (center_place_idx : PlaceIndex) (cluster : Job)
    (candidate : Job × List DissimilarityInfo) (config : ClusterConfig)
    (return_movement : ClusterInfo → (ℚ × ℚ) × (ℚ × ℚ))
    (check_insertion : CheckInsertionFn) : Option (Job × ClusterInfo) :=
  let time_window_threshold := config.building.smallest_time_window.getD 0
  let cluster_place := cluster.places.headD ⟨none, 0, []⟩
  let cluster_times := filter_times cluster_place.times
  let cluster_last_duration := cluster_last_duration_of cluster cluster_place config
  let job := candidate.1
  let ordering := config.building.ordering_local
  let include_unreachable := true
  let dissimilarities :=
    get_cluster_info_sorted center_place_idx candidate include_unreachable ordering
  dissimilarities.findSome? (fun info0 =>
    let place := job.places.getD info0.place_idx ⟨none, 0, []⟩
    let place_times := filter_times place.times
    let info := override_movement config return_movement info0
    let new_cluster_times := compute_new_cluster_times cluster_times place_times info
      cluster_place.duration cluster_last_duration time_window_threshold
    if new_cluster_times.isEmpty then none
    else
      let new_cluster_duration := cluster_place.duration + movement_duration config info
        + info.service_time
      let updated_cluster := create_single_job cluster_place.location new_cluster_duration
        new_cluster_times cluster.dimens
      let updated_candidate := create_single_job place.location new_cluster_duration
        new_cluster_times job.dimens
      match merge updated_cluster updated_candidate with
      | Except.ok merged_cluster =>
        match check_insertion merged_cluster with
        | Except.ok _ => some (merged_cluster, info)
        | Except.error _ => none
      | Except.error _ => none)
/-- The `try_fold` over sorted job estimates inside `build_job_cluster`'s
grow loop: a failed addition removes the candidate from the candidate set and
continues, the first success short-circuits with its data. -/
def addition_fold (merge : ConstraintPipeline) (last_place_idx : PlaceIndex) (cluster : Job)
    (config : ClusterConfig) (return_movement : ClusterInfo → (ℚ × ℚ) × (ℚ × ℚ))
    (check_insertion : CheckInsertionFn) :
    List (Job × List DissimilarityInfo × ClusterInfo) → List Job →
      List Job × Option (Job × ClusterInfo)
  | [], cands => (cands, none)
  | e :: rest, cands =>
    match try_add_job merge last_place_idx cluster (e.1, e.2.1) config return_movement
        check_insertion with
    | some data => (cands, some data)
    | none => addition_fold merge last_place_idx cluster config return_movement check_insertion
        rest (cands.filter (fun j => !job_eq j e.1))
/-- The grow `loop` of `build_job_cluster`, with an explicit fuel.  The
caller passes one more than the number of candidates: each iteration either
returns or — the candidate set shrinking by at least the added job whenever
the estimates map is well-formed — consumes one candidate, so the fuel is
never exhausted on well-formed inputs. -/
def grow_cluster (merge : ConstraintPipeline) (estimates : Estimates) (config : ClusterConfig)
    (check_insertion : CheckInsertionFn)
    (return_movement : ClusterInfo → (ℚ × ℚ) × (ℚ × ℚ)) :
    Nat → Job → Job → PlaceIndex → Nat → List Job → Job × Nat
  | 0, cluster, _, _, count, _ => (cluster, count)
  | Nat.succ fuel, cluster, last_job, last_place_idx, count, cluster_candidates =>
    if cluster_candidates.isEmpty then (cluster, count)
    else
      let ordering := config.building.ordering_local
      let job_estimates0 := ((lookup_job estimates last_job).toList.flatMap
        (fun index => index.filter (fun e => contains_job cluster_candidates e.1))).filterMap
        (fun estimate =>
          ((get_cluster_info_sorted last_place_idx estimate true ordering).head?).map
            (fun visit_info => (estimate.1, estimate.2, visit_info)))
      let job_estimates := sort_by_cmp (fun a b => ordering a.2.2 b.2.2) job_estimates0
      match addition_fold merge last_place_idx cluster config return_movement check_insertion
          job_estimates cluster_candidates with
      | (cands, some (new_cluster, visit_info)) =>
        let next := if config.visiting.is_return then (last_job, last_place_idx)
          else (visit_info.job, visit_info.place_idx)
        grow_cluster merge estimates config check_insertion return_movement fuel
          (with_cluster_dimension new_cluster visit_info) next.1 next.2 (count + 1)
          (cands.filter (fun j => !job_eq j visit_info.job))
      | (_, none) => (cluster, count)
/-- `unwrap_from_result` from the utils module: collapse an early-exit fold
result. -/
def unwrap_from_result {α : Type} : Except α α → α
  | Except.ok a => a
  | Except.error a => a
/-- One place's cluster growth inside `build_job_cluster`: synthesize the
seed cluster around the chosen center place, grow it greedily from the
reachable unused candidates, and finish it when more than one job was
clustered.  Returns the cluster and its job count. -/
def build_place_cluster (merge : ConstraintPipeline) (estimates : Estimates)
    (used_jobs : List Job) (config : ClusterConfig) (check_insertion : CheckInsertionFn)
    (center_job : Job) (center_estimates : DissimilarityIndex)
    (center_place_info : PlaceInfo) : Job × Nat :=
  let center_place_idx := center_place_info.1
  let center_location := center_place_info.2.1
  let center_duration := center_place_info.2.2.1
  let center_times := center_place_info.2.2.2
  let new_center_job := create_single_job (some center_location) center_duration center_times
    center_job.dimens
  let new_visit_info : ClusterInfo :=
    ⟨center_job, center_duration, center_place_idx, (0, 0), (0, 0)⟩
  let return_movement := return_movement_fn estimates center_job center_place_idx
  let cluster_candidates := center_estimates.filterMap (fun e =>
    if contains_job used_jobs e.1 then none
    else if e.2.any (fun d => d.1) then some e.1 else none)
  let cluster0 := with_cluster_dimension new_center_job new_visit_info
  let grown := grow_cluster merge estimates config check_insertion return_movement
    (cluster_candidates.length + 1) cluster0 center_job center_place_idx 1 cluster_candidates
  let count := grown.2
  (if count > 1 then finish_cluster grown.1 config return_movement else grown.1, count)
/-- One step of the per-place `try_fold` of `build_job_cluster`: keep the
best cluster by count, aborting the fold early (with the best so far) when
the user threshold predicate rejects it. -/
def build_place_step (merge : ConstraintPipeline) (estimates : Estimates)
    (used_jobs : List Job) (config : ClusterConfig) (check_insertion : CheckInsertionFn)
    (center_job : Job) (center_estimates : DissimilarityIndex)
    (best_cluster : Option (Job × Nat)) (center_place_info : PlaceInfo) :
    Except (Option (Job × Nat)) (Option (Job × Nat)) :=
  let grown := build_place_cluster merge estimates used_jobs config check_insertion center_job
    center_estimates center_place_info
  let cluster := grown.1
  let count := grown.2
  let best_cluster2 := match best_cluster with
    | some (_, best_count) => if best_count < count then some (cluster, count) else best_cluster
    | none => if count > 1 then some (cluster, count) else best_cluster
  match best_cluster2 with
  | some (job2, _) =>
    if !(config.building.threshold job2) then Except.error best_cluster2
    else Except.ok best_cluster2
  | none => Except.ok best_cluster2
/-- `build_job_cluster` from `estimations.rs`.  The `getD []` default models
the source's `expect("missing job in estimates")` panic. -/
def build_job_cluster (merge : ConstraintPipeline) (center_job : Job) (estimates : Estimates)
    (used_jobs : List Job) (config : ClusterConfig)
    (check_insertion : CheckInsertionFn) : Option Job :=
  let center_estimates := (lookup_job estimates center_job).getD []
  (unwrap_from_result ((center_job.places.enum.filterMap map_place).foldlM
    (build_place_step merge estimates used_jobs config check_insertion center_job
      center_estimates)
    (Option.none (α := Job × Nat)))).map (fun e => e.1)
/-! ## The vicinity clustering engine: the main loop -/
/-- The initial cluster estimates of `get_clusters`: for every center, no
cached cluster and the set of candidates that have at least one reachable
dissimilarity, in estimates iteration order. -/
def init_estimates (estimates : Estimates) : List (Job × (Option Job × List Job)) :=
  estimates.map (fun e =>
    (e.1, (none, e.2.filterMap (fun d =>
      if (d.2.filter (fun i => i.1)).isEmpty then none else some d.1))))
/-- The per-slot update of the parallel build phase of `get_clusters`: a
center with no cached cluster gets one rebuilt. -/
def rebuild_slot (merge : ConstraintPipeline) (estimates : Estimates) (used_jobs : List Job)
    (config : ClusterConfig) (check_insertion : CheckInsertionFn)
    (e : Job × (Option Job × List Job)) : Job × (Option Job × List Job) :=
  match e.2.1 with
  | some c => (e.1, (some c, e.2.2))
  | none =>
    (e.1, (build_job_cluster merge e.1 estimates used_jobs config check_insertion, e.2.2))
/-- `parallel_foreach_mut` from the utils module: a data-parallel in-place
update of disjoint slots; functionally, the list map. -/
def parallel_foreach_mut {α : Type} (f : α → α) (xs : List α) : List α := xs.map f
/-- The parallel build phase of one `get_clusters` iteration. -/
def build_phase (merge : ConstraintPipeline) (estimates : Estimates) (used_jobs : List Job)
    (config : ClusterConfig) (check_insertion : CheckInsertionFn)
    (state : List (Job × (Option Job × List Job))) : List (Job × (Option Job × List Job)) :=
  parallel_foreach_mut (rebuild_slot merge estimates used_jobs config check_insertion) state
/-- The main `loop` of `get_clusters`, with an explicit fuel.  The caller
passes one more than the number of centers: every committed cluster contains
its own center as first composed job, so each iteration either returns or
removes at least the winning center, and the fuel is never exhausted.  The
`getD []` default models the source's
`expect("expected to have jobs in a cluster")` panic. -/
def clusters_loop (merge : ConstraintPipeline) (estimates : Estimates) (config : ClusterConfig)
    (check_insertion : CheckInsertionFn) :
    Nat → List Job → List (Job × (Option Job × List Job)) → List (Job × List Job) →
      List (Job × List Job)
  | 0, _, _, clusters => clusters
  | Nat.succ fuel, used_jobs, cluster_estimates, clusters =>
    let built := build_phase merge estimates used_jobs config check_insertion cluster_estimates
    let sorted := sort_by_cmp
      (fun a b => config.building.ordering_global (b.1, b.2.2) (a.1, a.2.2)) built
    match sorted.head?.bind (fun e => e.2.1) with
    | some new_cluster =>
      let new_cluster_jobs := (cluster_infos new_cluster).map (fun i => i.job)
      let clusters2 := clusters ++ [(new_cluster, new_cluster_jobs)]
      let used_jobs2 := used_jobs ++ new_cluster_jobs
      let kept := sorted.filter (fun e => !contains_job used_jobs2 e.1)
      let updated := kept.map (fun e =>
        let cands := e.2.2.filter (fun j => !contains_job used_jobs2 j)
        let is_cluster_affected := match e.2.1 with
          | some c => (cluster_infos c).any (fun i => contains_job used_jobs2 i.job)
          | none => false
        (e.1, ((if is_cluster_affected then none else e.2.1), cands)))
      let pruned := updated.filter (fun e => !(e.2.2.isEmpty))
      clusters_loop merge estimates config check_insertion fuel used_jobs2 pruned clusters2
    | none => clusters
/-- `get_clusters` from `estimations.rs`. -/
def get_clusters (merge : ConstraintPipeline) (estimates : Estimates) (config : ClusterConfig)
    (check_insertion : CheckInsertionFn) : List (Job × List Job) :=
  clusters_loop merge estimates config check_insertion (estimates.length + 1) []
    (init_estimates estimates) []
/-- Updating one slot of a parallel work list (one task's exclusive write to
its own slot). -/
def apply_at {α : Type} (xs : List α) (i : Nat) (f : α → α) : List α :=
  match xs, i with
  | [], _ => []
  | x :: rest, 0 => f x :: rest
  | x :: rest, Nat.succ n => x :: apply_at rest n f
/-- Executing the per-slot updates of a parallel phase in an arbitrary
schedule: the slots listed in `sched` are updated in that order. -/
def run_schedule {α : Type} (f : α → α) (xs : List α) (sched : List Nat) : List α :=
  sched.foldl (fun acc i => apply_at acc i f) xs

/-! ## Concrete instances used by witnesses and counterexamples -/

/-- A job at location 0 with a 0-duration place open on `[0, 100)`. -/
def jA : Job := Job.mk 1 [⟨some 0, 0, [TimeSpan.Window ⟨0, 100⟩]⟩] ⟨none, none⟩

/-- A job at location 1 with a 0-duration place open on `[0, 100)`. -/
def jB : Job := Job.mk 2 [⟨some 1, 0, [TimeSpan.Window ⟨0, 100⟩]⟩] ⟨none, none⟩

/-- A job at location 2 with a 0-duration place open on `[0, 100)`. -/
def jC : Job := Job.mk 3 [⟨some 2, 0, [TimeSpan.Window ⟨0, 100⟩]⟩] ⟨none, none⟩

/-- A dissimilarity info of `jC` with unit movement. -/
def infoC : ClusterInfo := ⟨jC, 0, 0, (1, 1), (1, 1)⟩

/-- Estimates in which the center `jA` has no candidates and the center `jB`
reaches `jC`. -/
def esC2 : Estimates := [(jA, []), (jB, [(jC, [(true, 0, infoC)])])]

/-- A deterministic configuration: open continuation, original service time,
a constant global ordering (every pair of centers ties), the local ordering
by forward duration, an always-true threshold predicate and no smallest time
window. -/
def cfgW : ClusterConfig :=
  ⟨0, ⟨10, 10, none⟩, VisitPolicy.OpenContinuation, ServiceTimePolicy.Original,
    ⟨fun _ _ => Ordering.eq, fun a b => compare_floats a.forward.2 b.forward.2,
      fun _ => true, none⟩⟩

/-- The trivial constraint pipeline: no feature rejects, the merged job is
the source. -/
def mergeOk : ConstraintPipeline := fun s _ => Except.ok s

/-- The always-accepting insertion checker. -/
def chkOk : CheckInsertionFn := fun _ => Except.ok ()

/-- The dissimilarity info of `jB` as seen from `jA`. -/
def infoAB : ClusterInfo := ⟨jB, 0, 0, (1, 1), (1, 1)⟩

/-- The dissimilarity info of `jA` as seen from `jB`. -/
def infoBA : ClusterInfo := ⟨jA, 0, 0, (1, 1), (1, 1)⟩

/-- Estimates in which `jA` and `jB` reach each other; `esAB.reverse` is the
same finite map in the opposite hash iteration order. -/
def esAB : Estimates := [(jA, [(jB, [(true, 0, infoAB)])]), (jB, [(jA, [(true, 0, infoBA)])])]

/-- A transport oracle whose distances are 0 and whose duration from
location 0 to location 1 is the negative sentinel -1 (all others 0). -/
def tC1 : TransportCost :=
  ⟨fun _ _ _ _ => 0, fun _ f t _ => if f == 0 && t == 1 then -1 else 0⟩

/-- A transport oracle with all distances and durations 1. -/
def tPos : TransportCost := ⟨fun _ _ _ _ => 1, fun _ _ _ _ => 1⟩

/-- The center of the three-job closed-continuation scenario: location 0,
service duration 10. -/
def jB0 : Job := Job.mk 10 [⟨some 0, 10, [TimeSpan.Window ⟨0, 1000⟩]⟩] ⟨none, none⟩

/-- The first added job of the three-job scenario: location 1, service 2. -/
def jB1 : Job := Job.mk 11 [⟨some 1, 2, [TimeSpan.Window ⟨0, 1000⟩]⟩] ⟨none, none⟩

/-- The second added job of the three-job scenario: location 2, service 3. -/
def jB2 : Job := Job.mk 12 [⟨some 2, 3, [TimeSpan.Window ⟨0, 1000⟩]⟩] ⟨none, none⟩

/-- Center-to-`jB1` estimate: forward duration 1. -/
def i01 : ClusterInfo := ⟨jB1, 2, 0, (1, 1), (1, 1)⟩

/-- Center-to-`jB2` estimate: forward duration 5, backward duration 7. -/
def i02 : ClusterInfo := ⟨jB2, 3, 0, (5, 5), (7, 7)⟩

/-- `jB1`-to-`jB2` estimate: forward duration 4. -/
def i12 : ClusterInfo := ⟨jB2, 3, 0, (4, 4), (4, 4)⟩

/-- Estimates of the three-job scenario: the center reaches both jobs, and
`jB1` reaches `jB2`. -/
def es8 : Estimates :=
  [(jB0, [(jB1, [(true, 0, i01)]), (jB2, [(true, 0, i02)])]), (jB1, [(jB2, [(true, 0, i12)])])]

/-- The configuration of the three-job scenario: closed continuation. -/
def cfg8 : ClusterConfig :=
  ⟨0, ⟨10, 10, none⟩, VisitPolicy.ClosedContinuation, ServiceTimePolicy.Original,
    ⟨fun _ _ => Ordering.eq, fun a b => compare_floats a.forward.2 b.forward.2,
      fun _ => true, none⟩⟩

/-- A center job whose place closes at 50. -/
def jD0 : Job := Job.mk 20 [⟨some 0, 0, [TimeSpan.Window ⟨0, 50⟩]⟩] ⟨none, none⟩

/-- A candidate whose forward travel takes exactly as long as the center's
window leaves. -/
def jD1 : Job := Job.mk 21 [⟨some 1, 0, [TimeSpan.Window ⟨0, 100⟩]⟩] ⟨none, none⟩

/-- The dissimilarity of `jD1`: forward duration 50. -/
def iD1 : ClusterInfo := ⟨jD1, 0, 0, (50, 50), (1, 1)⟩

/-- The seed cluster around `jD0`. -/
def clusterD0 : Job :=
  with_cluster_dimension (create_single_job (some 0) 0 [⟨0, 50⟩] ⟨none, none⟩)
    ⟨jD0, 0, 0, (0, 0), (0, 0)⟩

/-- A return-movement resolver over empty estimates (the scenario does not
use the `Return` policy). -/
def rmD : ClusterInfo → (ℚ × ℚ) × (ℚ × ℚ) := return_movement_fn [] jD0 0

/-- The merged cluster of the C7 scenario: the seed location, the new
duration 50 and the single zero-width window. -/
def c7_merged : Job := create_single_job (some 0) 50 [⟨0, 0⟩] clusterD0.dimens

/-- A cluster job with one place of duration 5 whose last (and only) visit
is `i01`. -/
def c8_cluster : Job := Job.mk 30 [⟨some 0, 5, []⟩] ⟨some [i01], none⟩

/-- The return-movement resolver of the three-job scenario, anchored at the
center `jB0`'s place 0. -/
def c8_rm : ClusterInfo → (ℚ × ℚ) × (ℚ × ℚ) := return_movement_fn es8 jB0 0

/-- Well-formedness of an estimates map, as produced by
`get_jobs_dissimilarities`: every dissimilarity info of an inner key records
that key as its job, no inner key is its own outer key, and input jobs carry
no prior cluster dimension. -/
def wf_estimates (estimates : Estimates) : Prop :=
  (∀ e ∈ estimates, ∀ d ∈ e.2,
    (∀ i ∈ d.2, i.2.2.job.tag = d.1.tag) ∧ d.1.tag ≠ e.1.tag)
  ∧ (∀ e ∈ estimates, e.1.dimens.cluster.isNone = true)

/-- The pipeline merge preserves the source's cluster dimension: true of the
trivial pipeline and of every standard feature merge, none of which touches
the cluster key (the skills merge returns the source unchanged). -/
def merge_preserves_cluster (merge : ConstraintPipeline) : Prop :=
  ∀ s c m, merge s c = Except.ok m → m.dimens.cluster = s.dimens.cluster

/-- The invariant of a cached cluster slot for a center: its composed jobs
are pairwise distinct by identity, none of them is already used, and the
cluster dimension starts with the center's own zero-movement visit info. -/
def slot_inv (used : List Job) (center c : Job) : Prop :=
  ((cluster_infos c).map (fun i => i.job)).Pairwise (fun a b => a.tag ≠ b.tag)
  ∧ (∀ j ∈ (cluster_infos c).map (fun i => i.job), contains_job used j = false)
  ∧ (∃ cpi p rest, center.places[cpi]? = some p
      ∧ cluster_infos c = ⟨center, p.duration, cpi, (0, 0), (0, 0)⟩ :: rest)

/-- The head shape of a committed cluster, as returned by `get_clusters`: a
non-empty cluster dimension whose first entry records some job (the center)
with zero forward and backward movement and the service time of one of its
own places, and whose job list is exactly the composed-jobs list. -/
def committed_shape (p : Job × List Job) : Prop :=
  ∃ info rest, cluster_infos p.1 = info :: rest
    ∧ info.forward = (0, 0) ∧ info.backward = (0, 0)
    ∧ (∃ pl, info.job.places[info.place_idx]? = some pl ∧ info.service_time = pl.duration)
    ∧ p.2 = (cluster_infos p.1).map (fun i => i.job)

/-- The invariant of the main loop of `get_clusters`: committed composed
jobs are pairwise distinct and recorded as used, committed entries have the
committed shape, remaining centers are unused with a fresh cluster
dimension, and every cached slot satisfies its slot invariant. -/
def loop_inv (used : List Job) (state : List (Job × (Option Job × List Job)))
    (acc : List (Job × List Job)) : Prop :=
  ((acc.flatMap (fun e => e.2)).Pairwise (fun a b => a.tag ≠ b.tag))
  ∧ (∀ j ∈ acc.flatMap (fun e => e.2), contains_job used j = true)
  ∧ (∀ p ∈ acc, committed_shape p)
  ∧ (∀ e ∈ state, contains_job used e.1 = false)
  ∧ (∀ e ∈ state, e.1.dimens.cluster.isNone = true)
  ∧ (∀ e ∈ state, ∀ c, e.2.1 = some c → slot_inv used e.1 c)

/-- The invariant of the per-place fold of `build_job_cluster`: any best
cluster so far has pairwise-distinct composed jobs, all of them the center
itself or unused, and a cluster dimension led by the center's zero-movement
visit info for one of the center's own places. -/
def build_inv (center : Job) (used : List Job) (best : Option (Job × Nat)) : Prop :=
  ∀ c n, best = some (c, n) →
    ((cluster_infos c).map (fun i => i.job)).Pairwise (fun a b => a.tag ≠ b.tag)
    ∧ (∀ j ∈ (cluster_infos c).map (fun i => i.job),
        j.tag = center.tag ∨ contains_job used j = false)
    ∧ (∃ cpi p rest, center.places[cpi]? = some p
        ∧ cluster_infos c = ⟨center, p.duration, cpi, (0, 0), (0, 0)⟩ :: rest)

/-! ## Theorems -/

/-- C4 counterexample: `merge` rejects a candidate that carries a skills
dimension with all three sets absent against a source without a skills
dimension, although the claim's per-set subset condition (absent candidate
sets are always acceptable) holds for this pair. -/
theorem c4_skills_merge_claim_false :
    skills_merge 6 c4_source c4_candidate = Except.error 6
      ∧ skills_claim_cond c4_source c4_candidate :=
  ⟨rfl, trivial, trivial, trivial⟩
/-- `check_skill_sets` decides the per-set subset rule. -/
theorem check_skill_sets_iff (s c : Option (List String)) :
    check_skill_sets s c = true ↔ spec_skill_subset_rule s c := by
  cases s <;> cases c <;>
    simp [check_skill_sets, spec_skill_subset_rule, List.all_eq_true, List.contains]
/-- C4 (amended): `merge` succeeds — returning the source — if and only if
either the candidate has no skills dimension, or both jobs have a skills
dimension and each of the three sets `all_of`, `one_of`, `none_of` of the
candidate passes the per-set subset rule against the source's homonymous set;
in particular a source without a skills dimension cannot absorb a candidate
that has one, even when all of the candidate's sets are absent.  On failure
the feature's violation code is returned. -/
theorem c4_skills_merge_amended (code : ViolationCode) (source candidate : Job) :
    (skills_merge code source candidate = Except.ok source
      ↔ skills_merge_cond source candidate)
    ∧ (skills_merge code source candidate = Except.ok source
      ∨ skills_merge code source candidate = Except.error code) := by
  unfold skills_merge skills_merge_cond
  cases hs : source.dimens.skills <;> cases hc : candidate.dimens.skills <;> dsimp only
  · simp
  · simp
  · simp
  · rename_i ss cs
    have hbool : (check_skill_sets ss.all_of cs.all_of && check_skill_sets ss.one_of cs.one_of
        && check_skill_sets ss.none_of cs.none_of) = true
        ↔ (spec_skill_subset_rule ss.all_of cs.all_of
          ∧ spec_skill_subset_rule ss.one_of cs.one_of
          ∧ spec_skill_subset_rule ss.none_of cs.none_of) := by
      rw [Bool.and_eq_true, Bool.and_eq_true, check_skill_sets_iff, check_skill_sets_iff,
        check_skill_sets_iff, and_assoc]
    by_cases h : (check_skill_sets ss.all_of cs.all_of && check_skill_sets ss.one_of cs.one_of
        && check_skill_sets ss.none_of cs.none_of) = true
    · rw [if_pos h]
      exact ⟨iff_of_true rfl (hbool.mp h), Or.inl rfl⟩
    · rw [if_neg h]
      exact ⟨iff_of_false (by simp) (fun hc2 => h (hbool.mpr hc2)), Or.inr rfl⟩
/-- C5 counterexample: a job whose `one_of` set is present but empty is
rejected by the route-level `evaluate` against a vehicle that has skills —
the any-of check over an empty set is false — contradicting the claim that a
present-but-empty set never contributes a violation. -/
theorem c5_skills_evaluate_claim_false :
    skills_evaluate 6 (MoveContext.Route c5_route_ctx c5_job) = some ⟨6, true⟩
      ∧ (c5_job.dimens.skills.bind JobSkills.one_of) = some [] :=
  ⟨rfl, rfl⟩
/-- Unfolding of the route-level `evaluate` for a job with a skills
dimension. -/
theorem skills_evaluate_route_eq (code : ViolationCode) (rc : RouteContext) (job : Job)
    (js : JobSkills) (hjs : job.dimens.skills = some js) :
    skills_evaluate code (MoveContext.Route rc job)
      = (if check_all_of js rc.route.actor.vehicle.skills
          && check_one_of js rc.route.actor.vehicle.skills
          && check_none_of js rc.route.actor.vehicle.skills
        then none else some ⟨code, true⟩) := by
  obtain ⟨t, p, d⟩ := job
  obtain ⟨cl, sk⟩ := d
  simp only [Job.dimens] at hjs
  cases hjs
  rfl
/-- C5 (amended): in the route-level `evaluate`, a present-but-empty `all_of`
or `none_of` set contributes no violation regardless of the vehicle's skills,
and a present-but-empty `one_of` set is vacuously satisfied only when the
vehicle has no skills: when the vehicle has a skills set, an empty `one_of`
fails.  Absence of vehicle skills fails only a non-empty `all_of` or
`one_of`. -/
theorem c5_skills_evaluate_amended (code : ViolationCode) (rc : RouteContext) (job : Job)
    (js : JobSkills) (hjs : job.dimens.skills = some js) :
    (js.all_of = some [] → js.none_of = some [] → js.one_of = none →
      skills_evaluate code (MoveContext.Route rc job) = none)
    ∧ (∀ vs, rc.route.actor.vehicle.skills = some vs → js.one_of = some [] →
      skills_evaluate code (MoveContext.Route rc job) = some ⟨code, true⟩)
    ∧ (rc.route.actor.vehicle.skills = none → js.one_of = some [] →
      js.all_of = none → js.none_of = none →
      skills_evaluate code (MoveContext.Route rc job) = none)
    ∧ (rc.route.actor.vehicle.skills = none →
      skills_evaluate code (MoveContext.Route rc job) = some ⟨code, true⟩ →
      (∃ x l, js.all_of = some (x :: l)) ∨ (∃ x l, js.one_of = some (x :: l))) := by
  have heq := skills_evaluate_route_eq code rc job js hjs
  refine ⟨?_, ?_, ?_, ?_⟩
  · intro ha hn ho
    rw [heq]
    cases hvs : rc.route.actor.vehicle.skills <;>
      simp [check_all_of, check_one_of, check_none_of, ha, hn, ho]
  · intro vs hvs ho
    rw [heq, hvs]
    have hone : check_one_of js (some vs) = false := by
      unfold check_one_of
      rw [ho]
      rfl
    simp [hone]
  · intro hvs ho ha hn
    rw [heq, hvs]
    simp [check_all_of, check_one_of, check_none_of, ha, hn, ho]
  · intro hvs heval
    rw [heq, hvs] at heval
    by_cases hall : check_all_of js none = true
    · by_cases hone : check_one_of js none = true
      · have hnone : check_none_of js none = true := by
          unfold check_none_of
          cases js.none_of <;> rfl
        rw [hall, hone, hnone] at heval
        simp at heval
      · right
        unfold check_one_of at hone
        cases ho : js.one_of with
        | none =>
          rw [ho] at hone
          simp at hone
        | some l =>
          rw [ho] at hone
          cases l with
          | nil => simp at hone
          | cons x xs => exact ⟨x, xs, rfl⟩
    · left
      unfold check_all_of at hall
      cases ha : js.all_of with
      | none =>
        rw [ha] at hall
        simp at hall
      | some l =>
        rw [ha] at hall
        cases l with
        | nil => simp at hall
        | cons x xs => exact ⟨x, xs, rfl⟩
/-- C5 witness: the amended theorem applied at a concrete job with an empty
`one_of` set and a vehicle with skills. -/
theorem c5_skills_evaluate_amended_witness :
    skills_evaluate 6 (MoveContext.Route c5_route_ctx c5_job) = some ⟨6, true⟩ :=
  (c5_skills_evaluate_amended 6 c5_route_ctx c5_job ⟨none, some [], none⟩ rfl).2.1 ["x"] rfl rfl
/-- C9: when the skills feature's `merge(source, candidate)` succeeds, the
returned job is the source job itself, unchanged — no skill set of the
candidate is unioned into the result and no dimension of the source is
modified. -/
theorem c9_skills_merge_returns_source (code : ViolationCode) (source candidate merged : Job)
    (h : skills_merge code source candidate = Except.ok merged) : merged = source := by
  have h2 : (if (match source.dimens.skills, candidate.dimens.skills with
      | some _, none => true
      | none, none => true
      | none, some _ => false
      | some ss, some cs =>
        check_skill_sets ss.all_of cs.all_of && check_skill_sets ss.one_of cs.one_of
          && check_skill_sets ss.none_of cs.none_of) = true
    then (Except.ok source : Except ViolationCode Job)
    else Except.error code) = Except.ok merged := h
  split at h2
  · exact (Except.ok.inj h2).symm
  · exact absurd h2 (by simp)
/-- C9 witness: a successful concrete merge (source `all_of = {"a","b"}`
absorbing candidate `all_of = {"a"}`) returns the source itself. -/
theorem c9_skills_merge_returns_source_witness :
    skills_merge 6 c9_source c9_candidate = Except.ok c9_source ∧ c9_source = c9_source :=
  ⟨rfl, c9_skills_merge_returns_source 6 c9_source c9_candidate c9_source rfl⟩

/-- `compare_floats … != Less` is exactly non-negativity of the comparison's
left side relative to its right side. -/
theorem compare_floats_ne_lt (a b : ℚ) :
    ((compare_floats a b != Ordering.lt) = true) ↔ b ≤ a := by
  unfold compare_floats
  split_ifs with h1 h2
  · exact iff_of_false (by decide) (not_le.mpr h1)
  · exact iff_of_true (by decide) (le_of_lt h2)
  · exact iff_of_true (by decide) (le_of_not_lt h1)

/-- C1 (amended): for every emitted dissimilarity entry, the reachable flag
is true if and only if both *distances* are non-negative, both durations are
strictly below `threshold.moving_duration` and both distances are strictly
below `threshold.moving_distance`; the signs of the two durations are not
checked. -/
theorem c1_reachable_amended (outer inner : Job) (transport : TransportCost)
    (config : ClusterConfig) (r : Reachable) (idx : PlaceIndex) (info : ClusterInfo)
    (hmem : (r, idx, info) ∈ get_dissimilarities outer inner transport config) :
    (r = true ↔ (0 ≤ info.forward.1 ∧ 0 ≤ info.backward.1
      ∧ info.forward.2 < config.threshold.moving_duration
      ∧ info.backward.2 < config.threshold.moving_duration
      ∧ info.forward.1 < config.threshold.moving_distance
      ∧ info.backward.1 < config.threshold.moving_distance)) := by
  unfold get_dissimilarities at hmem
  rw [List.mem_flatMap] at hmem
  obtain ⟨op, hop, hmem⟩ := hmem
  rw [List.mem_filterMap] at hmem
  obtain ⟨ip, hip, heq⟩ := hmem
  dsimp only at heq
  split at heq
  · rw [Option.some_inj, Prod.mk.injEq, Prod.mk.injEq] at heq
    obtain ⟨hr, _, hinfo⟩ := heq
    subst hr
    subst hinfo
    simp only [Bool.and_eq_true, decide_eq_true_eq, sub_neg, compare_floats_ne_lt]
    constructor
    · intro h
      tauto
    · intro h
      tauto
  · exact absurd heq (by simp)

/-- C1 counterexample: with a transport oracle whose forward duration is the
negative sentinel -1 while both distances are 0, the emitted entry is
reachable although one of the four oracle values is negative — the claim's
"all four values are non-negative" direction fails. -/
theorem c1_reachable_claim_false :
    get_dissimilarities jA jB tC1 cfgW = [(true, 0, ⟨jB, 0, 0, (0, -1), (0, 0)⟩)]
      ∧ ¬ ((0 : ℚ) ≤ (-1 : ℚ)) :=
  ⟨by with_unfolding_all rfl, by norm_num⟩

/-- C1 witness: the amended theorem applied to the concrete all-ones oracle,
whose single emitted entry is reachable. -/
theorem c1_reachable_amended_witness :
    ((true, 0, infoAB) ∈ get_dissimilarities jA jB tPos cfgW)
    ∧ (true = true ↔ (0 ≤ infoAB.forward.1 ∧ 0 ≤ infoAB.backward.1
      ∧ infoAB.forward.2 < cfgW.threshold.moving_duration
      ∧ infoAB.backward.2 < cfgW.threshold.moving_duration
      ∧ infoAB.forward.1 < cfgW.threshold.moving_distance
      ∧ infoAB.backward.1 < cfgW.threshold.moving_distance)) := by
  have hmem : (true, 0, infoAB) ∈ get_dissimilarities jA jB tPos cfgW := by
    rw [show get_dissimilarities jA jB tPos cfgW = [(true, 0, infoAB)] from by
      with_unfolding_all rfl]
    exact List.mem_singleton.mpr rfl
  exact ⟨hmem, c1_reachable_amended jA jB tPos cfgW true 0 infoAB hmem⟩

/-- The main loop only appends to its accumulator. -/
theorem clusters_loop_length_mono (merge : ConstraintPipeline) (estimates : Estimates)
    (config : ClusterConfig) (check_insertion : CheckInsertionFn) (fuel : Nat) (used : List Job)
    (state : List (Job × (Option Job × List Job))) (acc : List (Job × List Job)) :
    acc.length ≤ (clusters_loop merge estimates config check_insertion fuel used state acc).length := by
  induction fuel generalizing used state acc with
  | zero => simp [clusters_loop]
  | succ fuel ih =>
    rw [clusters_loop]
    split
    · exact le_trans (by simp) (ih _ _ _)
    · exact le_refl _

/-- C2 (amended): an iteration of the main loop of `get_clusters` terminates
— returns its accumulated clusters unchanged — exactly when the *first*
center after the global sort has no cached cluster.  Since `ordering_global`
ranks centers only by their job and candidate set, never by whether a cached
cluster exists, this is weaker than "no remaining center yielded a cluster":
the loop can terminate while another center's slot still holds one. -/
theorem c2_terminates_iff_head_none (merge : ConstraintPipeline) (estimates : Estimates)
    (config : ClusterConfig) (check_insertion : CheckInsertionFn) (fuel : Nat) (used : List Job)
    (state : List (Job × (Option Job × List Job))) (acc : List (Job × List Job)) :
    clusters_loop merge estimates config check_insertion (fuel + 1) used state acc = acc
    ↔ ((sort_by_cmp (fun a b => config.building.ordering_global (b.1, b.2.2) (a.1, a.2.2))
        (build_phase merge estimates used config check_insertion state)).head?.bind
        (fun e => e.2.1)) = none := by
  rw [clusters_loop]
  cases h : ((sort_by_cmp (fun a b => config.building.ordering_global (b.1, b.2.2) (a.1, a.2.2))
      (build_phase merge estimates used config check_insertion state)).head?.bind
      (fun e => e.2.1)) with
  | none =>
    exact iff_of_true rfl rfl
  | some c =>
    dsimp only
    have key : ∀ (U : List Job) (S : List (Job × (Option Job × List Job))) (x : Job × List Job),
        clusters_loop merge estimates config check_insertion fuel U S (acc ++ [x]) ≠ acc := by
      intro U S x heq
      have hlen := clusters_loop_length_mono merge estimates config check_insertion fuel U S
        (acc ++ [x])
      rw [heq] at hlen
      simp at hlen
    exact iff_of_false (key _ _ _) (by simp)

/-- C2 counterexample: on `esC2` the center `jA` (no candidates, so its build
yields no cluster) ties with `jB` under the constant global ordering and
stays first; after the parallel build phase `jB`'s slot holds a cluster
(`[false, true]` below), yet `get_clusters` terminates immediately and
commits nothing. -/
theorem c2_terminates_claim_false :
    ((build_phase mergeOk esC2 [] cfgW chkOk (init_estimates esC2)).map
      (fun e => e.2.1.isSome)) = [false, true]
    ∧ get_clusters mergeOk esC2 cfgW chkOk = [] :=
  ⟨by with_unfolding_all rfl, by with_unfolding_all rfl⟩

/-- C3 counterexample: `esAB.reverse` is the same estimates map as `esAB` in
the opposite hash iteration order, and under a constant (deterministic)
global ordering the two orders produce different outputs: the cluster around
`jA` with composed tags `[1, 2]`, respectively the cluster around `jB` with
composed tags `[2, 1]`. -/
theorem c3_deterministic_claim_false :
    (get_clusters mergeOk esAB cfgW chkOk).map (fun e => e.2.map Job.tag) = [[1, 2]]
    ∧ (get_clusters mergeOk esAB.reverse cfgW chkOk).map (fun e => e.2.map Job.tag) = [[2, 1]] :=
  ⟨by with_unfolding_all rfl, by with_unfolding_all rfl⟩

/-- Reading one slot of a scheduled parallel phase: only the update of that
very slot is visible. -/
theorem apply_at_getElem? {α : Type} (xs : List α) (i j : Nat) (f : α → α) :
    (apply_at xs i f)[j]? = if i = j then (xs[j]?).map f else xs[j]? := by
  induction xs generalizing i j with
  | nil =>
    rw [show apply_at ([] : List α) i f = [] from by cases i <;> rfl]
    split <;> simp
  | cons x rest ih =>
    cases i with
    | zero =>
      cases j with
      | zero => simp [apply_at]
      | succ j => simp [apply_at]
    | succ i =>
      cases j with
      | zero => simp [apply_at]
      | succ j =>
        simp only [apply_at, List.getElem?_cons_succ, ih, Nat.add_right_cancel_iff]

/-- Reading one slot after a duplicate-free schedule has executed: the slot
is updated exactly when it is scheduled. -/
theorem run_schedule_getElem? {α : Type} (f : α → α) (xs : List α) (sched : List Nat)
    (hnd : sched.Nodup) (j : Nat) :
    (run_schedule f xs sched)[j]? = if j ∈ sched then (xs[j]?).map f else xs[j]? := by
  induction sched generalizing xs with
  | nil => simp [run_schedule]
  | cons i rest ih =>
    have hnd2 := List.nodup_cons.mp hnd
    rw [show run_schedule f xs (i :: rest) = run_schedule f (apply_at xs i f) rest from rfl]
    rw [ih _ hnd2.2]
    by_cases hj : j ∈ rest
    · rw [if_pos hj, apply_at_getElem?]
      have hne : i ≠ j := fun h => hnd2.1 (h ▸ hj)
      rw [if_neg hne, if_pos (List.mem_cons_of_mem _ hj)]
    · rw [if_neg hj, apply_at_getElem?]
      by_cases hij : i = j
      · rw [if_pos hij, if_pos (by rw [List.mem_cons]; exact Or.inl hij.symm)]
      · rw [if_neg hij, if_neg (by
          rw [List.mem_cons]
          rintro (h | h)
          · exact hij h.symm
          · exact hj h)]

/-- C3 (amended): the parallel build phase of `get_clusters` is independent
of the execution schedule — updating the per-center slots in any order (any
permutation of the slot indices) yields exactly the serial in-order map, so
the output is unaffected by thread count or scheduling.  It is, however, a
function of the *iteration order* of the estimates map, and with a tying
`ordering_global` two orders of the same map give different outputs
(see the counterexample). -/
theorem c3_build_phase_schedule_independent (merge : ConstraintPipeline) (estimates : Estimates)
    (used : List Job) (config : ClusterConfig) (check_insertion : CheckInsertionFn)
    (state : List (Job × (Option Job × List Job))) (sched : List Nat)
    (hperm : sched.Perm (List.range state.length)) :
    run_schedule (rebuild_slot merge estimates used config check_insertion) state sched
      = build_phase merge estimates used config check_insertion state := by
  have hnd : sched.Nodup := hperm.nodup_iff.mpr (List.nodup_range _)
  apply List.ext_getElem?
  intro j
  rw [run_schedule_getElem? _ _ _ hnd j]
  have hmem : j ∈ sched ↔ j < state.length := by
    rw [hperm.mem_iff, List.mem_range]
  by_cases hj : j < state.length
  · rw [if_pos (hmem.mpr hj)]
    simp [build_phase, parallel_foreach_mut, List.getElem?_map]
  · rw [if_neg (fun h => hj (hmem.mp h))]
    rw [show state[j]? = none from List.getElem?_eq_none (not_lt.mp hj)]
    simp [build_phase, parallel_foreach_mut, List.getElem?_map,
      List.getElem?_eq_none (not_lt.mp hj)]

/-- C3 witness: the schedule that runs the two slots of `esC2`'s state in
reverse order produces the same built state as the serial map. -/
theorem c3_build_phase_schedule_independent_witness :
    ([1, 0].Perm (List.range (init_estimates esC2).length))
    ∧ run_schedule (rebuild_slot mergeOk esC2 [] cfgW chkOk) (init_estimates esC2) [1, 0]
      = build_phase mergeOk esC2 [] cfgW chkOk (init_estimates esC2) :=
  ⟨by with_unfolding_all decide,
    c3_build_phase_schedule_independent mergeOk esC2 [] cfgW chkOk (init_estimates esC2) [1, 0]
      (by with_unfolding_all decide)⟩

/-- Every window produced by `compute_new_cluster_times` is at least the
smallest-time-window threshold wide. -/
theorem compute_new_cluster_times_width (cluster_times place_times : List TimeWindow)
    (info : ClusterInfo) (cpd cld twt : ℚ) (tw : TimeWindow)
    (h : tw ∈ compute_new_cluster_times cluster_times place_times info cpd cld twt) :
    twt ≤ tw.stop - tw.start := by
  unfold compute_new_cluster_times at h
  rw [List.mem_filterMap] at h
  obtain ⟨td, _, heq⟩ := h
  dsimp only at heq
  split at heq
  · exact absurd heq (by simp)
  · rename_i hcond
    rw [Option.some_inj] at heq
    subst heq
    exact not_lt.mp hcond

/-- Inversion of a successful `try_add_job`: the returned visit info stems
from the candidate's sorted infos — keeping its job and place index even
when the `Return` policy overrides the movement — and the merged cluster is
the pipeline merge of a fresh single job that carries the cluster's
dimension bag and the filtered new cluster times. -/
theorem try_add_job_success_inv (merge : ConstraintPipeline) (center_place_idx : PlaceIndex)
    (cluster : Job) (candidate : Job × List DissimilarityInfo) (config : ClusterConfig)
    (return_movement : ClusterInfo → (ℚ × ℚ) × (ℚ × ℚ)) (check_insertion : CheckInsertionFn)
    (merged : Job) (info : ClusterInfo)
    (h : try_add_job merge center_place_idx cluster candidate config return_movement
      check_insertion = some (merged, info)) :
    ∃ info0 nct,
      info0 ∈ get_cluster_info_sorted center_place_idx candidate true
        config.building.ordering_local
      ∧ info = override_movement config return_movement info0
      ∧ (∀ tw ∈ nct, config.building.smallest_time_window.getD 0 ≤ tw.stop - tw.start)
      ∧ ∃ ncd cand_job,
        merge (create_single_job (cluster.places.headD ⟨none, 0, []⟩).location ncd nct
          cluster.dimens) cand_job = Except.ok merged := by
  unfold try_add_job at h
  obtain ⟨info0, hmem0, hstep⟩ := List.exists_of_findSome?_eq_some h
  dsimp only at hstep
  split at hstep
  · exact absurd hstep (by simp)
  · split at hstep
    · rename_i merged2 hmerge2
      split at hstep
      · rw [Option.some_inj, Prod.mk.injEq] at hstep
        obtain ⟨hm, hi⟩ := hstep
        subst hm
        subst hi
        exact ⟨info0, _, hmem0, rfl,
          fun tw htw => compute_new_cluster_times_width _ _ _ _ _ _ tw htw, _, _, hmerge2⟩
      · exact absurd hstep (by simp)
    · exact absurd hstep (by simp)

/-- `override_movement` never changes the job or the place index of a visit
info. -/
theorem override_movement_fields (config : ClusterConfig)
    (return_movement : ClusterInfo → (ℚ × ℚ) × (ℚ × ℚ)) (info0 : ClusterInfo) :
    (override_movement config return_movement info0).job = info0.job
    ∧ (override_movement config return_movement info0).place_idx = info0.place_idx := by
  unfold override_movement
  split <;> exact ⟨rfl, rfl⟩

/-- C7 (amended): when `try_add_job` commits a candidate (and the pipeline
merge preserves the source's places, as the trivial and the skills pipelines
do), every time window of the returned cluster's place is at least
`building.smallest_time_window` wide — with an unset threshold treated as 0.
Windows with `end < start` are thus discarded whenever the threshold is
non-negative, but a *zero-width* window (`end = start`) survives an unset
threshold, so "end ≤ start is always infeasible" does not hold. -/
theorem c7_window_threshold_amended (merge : ConstraintPipeline)
    (center_place_idx : PlaceIndex) (cluster : Job)
    (candidate : Job × List DissimilarityInfo) (config : ClusterConfig)
    (return_movement : ClusterInfo → (ℚ × ℚ) × (ℚ × ℚ)) (check_insertion : CheckInsertionFn)
    (merged : Job) (info : ClusterInfo)
    (hmerge : ∀ s c m, merge s c = Except.ok m → m.places = s.places)
    (h : try_add_job merge center_place_idx cluster candidate config return_movement
      check_insertion = some (merged, info)) :
    ∀ p ∈ merged.places, ∀ ts ∈ p.times, ∀ tw, ts = TimeSpan.Window tw →
      config.building.smallest_time_window.getD 0 ≤ tw.stop - tw.start := by
  obtain ⟨info0, nct, _, _, hwidth, ncd, cand_job, hmerge2⟩ :=
    try_add_job_success_inv merge center_place_idx cluster candidate config return_movement
      check_insertion merged info h
  intro p hp ts hts tw htw
  rw [hmerge _ _ _ hmerge2] at hp
  rw [show (create_single_job (cluster.places.headD ⟨none, 0, []⟩).location ncd nct
      cluster.dimens).places = [⟨(cluster.places.headD ⟨none, 0, []⟩).location, ncd,
      nct.map TimeSpan.Window⟩] from rfl, List.mem_singleton] at hp
  subst hp
  dsimp only at hts
  rw [List.mem_map] at hts
  obtain ⟨tw0, htw0, hts0⟩ := hts
  rw [← hts0] at htw
  cases htw
  exact hwidth _ htw0

/-- C7 counterexample: with an unset smallest time window, `try_add_job`
commits a cluster whose place carries the zero-width time window `[0, 0]` —
a window with `end ≤ start` appears in a committed cluster. -/
theorem c7_empty_window_claim_false :
    (try_add_job mergeOk 0 clusterD0 (jD1, [(true, 0, iD1)]) cfgW rmD chkOk).map
      (fun r => r.1.places.map Place.times) = some [[TimeSpan.Window ⟨0, 0⟩]]
    ∧ (⟨0, 0⟩ : TimeWindow).stop ≤ (⟨0, 0⟩ : TimeWindow).start :=
  ⟨by with_unfolding_all rfl, le_refl 0⟩

/-- C7 witness: the amended theorem applied to the concrete zero-width
commit. -/
theorem c7_window_threshold_amended_witness :
    try_add_job mergeOk 0 clusterD0 (jD1, [(true, 0, iD1)]) cfgW rmD chkOk
      = some (c7_merged, iD1)
    ∧ cfgW.building.smallest_time_window.getD 0 ≤ (0 : ℚ) - 0 := by
  constructor
  · with_unfolding_all rfl
  · exact c7_window_threshold_amended mergeOk 0 clusterD0 (jD1, [(true, 0, iD1)]) cfgW rmD
      chkOk c7_merged iD1 (fun s c m hm => by cases hm; rfl) (by with_unfolding_all rfl)
      ⟨some 0, 50, [TimeSpan.Window ⟨0, 0⟩]⟩ (by with_unfolding_all exact List.mem_singleton.mpr rfl)
      (TimeSpan.Window ⟨0, 0⟩) (by with_unfolding_all exact List.mem_singleton.mpr rfl)
      ⟨0, 0⟩ rfl

/-- C8: `finish_cluster` adds, under `ClosedContinuation` and for a cluster
with visits, exactly the resolver's backward (return) duration of the last
visit to the seed place's duration (keeping location, times and dimensions),
and returns the cluster unchanged under every other policy.  Consequently the
concrete three-job closed-continuation cluster around `jB0` ends with seed
place duration `10 + 1 + 2 + 4 + 3 + 7`: the center duration, plus forward
travel and service time of `jB1`, plus forward travel and service time of
`jB2`, plus one backward duration from `jB2` back to the center. -/
theorem c8_finish_cluster_adds_backward (cluster : Job) (config : ClusterConfig)
    (rm : ClusterInfo → (ℚ × ℚ) × (ℚ × ℚ)) :
    (∀ clustered last place0,
      config.visiting = VisitPolicy.ClosedContinuation →
      cluster.dimens.cluster = some clustered →
      clustered.getLast? = some last →
      cluster.places.head? = some place0 →
      finish_cluster cluster config rm
        = Job.mk 0 [⟨place0.location, place0.duration + (rm last).2.2, place0.times⟩]
          cluster.dimens)
    ∧ (config.visiting ≠ VisitPolicy.ClosedContinuation →
      finish_cluster cluster config rm = cluster)
    ∧ (build_job_cluster mergeOk jB0 es8 [] cfg8 chkOk).map
        (fun c => c.places.map Place.duration) = some [10 + 1 + 2 + 4 + 3 + 7] := by
  refine ⟨?_, ?_, by with_unfolding_all rfl⟩
  · intro clustered last place0 hv hdim hlast hhead
    unfold finish_cluster
    rw [hv, hdim]
    dsimp only
    rw [hlast, hhead]
  · intro hne
    unfold finish_cluster
    cases hv : config.visiting
    · rfl
    · exact absurd hv hne
    · rfl

/-- C8 witness: the theorem applied at a concrete closed-continuation
cluster (backward duration 1 is added) and at the open-continuation
configuration (unchanged). -/
theorem c8_finish_cluster_adds_backward_witness :
    finish_cluster c8_cluster cfg8 c8_rm
      = Job.mk 0 [⟨some 0, 5 + 1, []⟩] c8_cluster.dimens
    ∧ finish_cluster c8_cluster cfgW c8_rm = c8_cluster :=
  ⟨(c8_finish_cluster_adds_backward c8_cluster cfg8 c8_rm).1 [i01] i01 ⟨some 0, 5, []⟩
      rfl rfl rfl rfl,
    (c8_finish_cluster_adds_backward c8_cluster cfgW c8_rm).2.1 (by decide)⟩

/-- Membership reading of `contains_job`. -/
theorem contains_job_iff (s : List Job) (j : Job) :
    contains_job s j = true ↔ ∃ x ∈ s, x.tag = j.tag := by
  simp [contains_job, job_eq, List.any_eq_true, beq_iff_eq]

/-- Non-membership reading of `contains_job`. -/
theorem contains_job_eq_false_iff (s : List Job) (j : Job) :
    contains_job s j = false ↔ ∀ x ∈ s, x.tag ≠ j.tag := by
  simp [contains_job, job_eq, List.any_eq_false, beq_eq_false_iff_ne]

/-- `contains_job` sees only the identity tag. -/
theorem contains_job_tag_congr (s : List Job) {a b : Job} (h : a.tag = b.tag) :
    contains_job s a = contains_job s b := by
  simp [contains_job, job_eq, h]

/-- A member is contained. -/
theorem contains_job_of_mem {s : List Job} {j : Job} (h : j ∈ s) : contains_job s j = true :=
  (contains_job_iff s j).mpr ⟨j, h, rfl⟩

/-- Containment survives dropping a filter. -/
theorem contains_job_filter_le {s : List Job} {p : Job → Bool} {j : Job}
    (h : contains_job (s.filter p) j = true) : contains_job s j = true := by
  rw [contains_job_iff] at h
  obtain ⟨x, hx, ht⟩ := h
  exact (contains_job_iff s j).mpr ⟨x, List.mem_of_mem_filter hx, ht⟩

/-- `contains_job` over an append. -/
theorem contains_job_append (a b : List Job) (j : Job) :
    contains_job (a ++ b) j = (contains_job a j || contains_job b j) := by
  simp [contains_job, List.any_append]

/-- Removing a job by identity removes it. -/
theorem contains_job_filter_ne_self (s : List Job) (j : Job) :
    contains_job (s.filter (fun x => !job_eq x j)) j = false := by
  rw [contains_job_eq_false_iff]
  intro x hx
  have hmf := List.of_mem_filter hx
  simpa [job_eq, beq_eq_false_iff_ne] using hmf

/-- `with_cluster_dimension` appends the visit info. -/
theorem cluster_infos_with_dimension (cluster : Job) (vi : ClusterInfo) :
    cluster_infos (with_cluster_dimension cluster vi) = cluster_infos cluster ++ [vi] := rfl

/-- `create_single_job` copies the dimension bag. -/
theorem cluster_infos_create_single (loc : Option Location) (dur : ℚ)
    (times : List TimeWindow) (dimens : Dimens) :
    cluster_infos (create_single_job loc dur times dimens) = dimens.cluster.getD [] := rfl

/-- `finish_cluster` never changes the cluster dimension. -/
theorem cluster_infos_finish (cluster : Job) (config : ClusterConfig)
    (rm : ClusterInfo → (ℚ × ℚ) × (ℚ × ℚ)) :
    cluster_infos (finish_cluster cluster config rm) = cluster_infos cluster := by
  unfold finish_cluster
  split
  · split
    · rename_i clustered last place hlast hplace
      show (Job.mk 0 _ cluster.dimens).dimens.cluster.getD [] = _
      rfl
    · rfl
  · rfl

/-- The head survives appending. -/
theorem head?_append_of_eq_some {α : Type} {l1 l2 : List α} {a : α}
    (h : l1.head? = some a) : (l1 ++ l2).head? = some a := by
  cases l1 with
  | nil => simp at h
  | cons x t => simpa using h

/-- `sort_by_cmp` permutes; membership is unchanged. -/
theorem mem_sort_by_cmp {α : Type} (cmp : α → α → Ordering) (l : List α) (x : α) :
    x ∈ sort_by_cmp cmp l ↔ x ∈ l := List.mem_mergeSort

/-- Every info produced by `get_cluster_info_sorted` is one of the
candidate's dissimilarity infos. -/
theorem mem_get_cluster_info_sorted {cpi : PlaceIndex} {est : Job × List DissimilarityInfo}
    {inc : Bool} {ord : ClusterInfo → ClusterInfo → Ordering} {i : ClusterInfo}
    (h : i ∈ get_cluster_info_sorted cpi est inc ord) : ∃ d ∈ est.2, i = d.2.2 := by
  unfold get_cluster_info_sorted at h
  rw [mem_sort_by_cmp, List.mem_map] at h
  obtain ⟨d, hd, hi⟩ := h
  exact ⟨d, List.mem_of_mem_filter (List.mem_of_mem_filter hd), hi.symm⟩

/-- A successful `try_add_job` keeps the cluster dimension of the cluster it
extends (when the pipeline merge preserves it), and its visit info is drawn
from the candidate's dissimilarity infos with the job identity intact. -/
theorem try_add_job_cluster_dim (merge : ConstraintPipeline) (cpi : PlaceIndex)
    (cluster : Job) (candidate : Job × List DissimilarityInfo) (config : ClusterConfig)
    (rm : ClusterInfo → (ℚ × ℚ) × (ℚ × ℚ)) (chk : CheckInsertionFn) (merged : Job)
    (info : ClusterInfo) (hpres : merge_preserves_cluster merge)
    (h : try_add_job merge cpi cluster candidate config rm chk = some (merged, info)) :
    merged.dimens.cluster = cluster.dimens.cluster
    ∧ ∃ d ∈ candidate.2, info.job.tag = d.2.2.job.tag := by
  obtain ⟨info0, nct, hmem0, hov, _, ncd, cand_job, hmerge2⟩ :=
    try_add_job_success_inv merge cpi cluster candidate config rm chk merged info h
  constructor
  · rw [hpres _ _ _ hmerge2]
    rfl
  · obtain ⟨d, hd, hi0⟩ := mem_get_cluster_info_sorted hmem0
    refine ⟨d, hd, ?_⟩
    rw [hov, (override_movement_fields config rm info0).1, hi0]

/-- Inversion of the addition fold: candidates only shrink, and a success is
a successful `try_add_job` on one of the entries. -/
theorem addition_fold_spec (merge : ConstraintPipeline) (lpi : PlaceIndex) (cluster : Job)
    (config : ClusterConfig) (rm : ClusterInfo → (ℚ × ℚ) × (ℚ × ℚ))
    (chk : CheckInsertionFn) :
    ∀ (entries : List (Job × List DissimilarityInfo × ClusterInfo)) (cands cands2 : List Job)
      (res : Option (Job × ClusterInfo)),
      addition_fold merge lpi cluster config rm chk entries cands = (cands2, res)
      → (∀ j, contains_job cands2 j = true → contains_job cands j = true)
        ∧ (∀ nc vi, res = some (nc, vi) →
          ∃ e ∈ entries, try_add_job merge lpi cluster (e.1, e.2.1) config rm chk
            = some (nc, vi)) := by
  intro entries
  induction entries with
  | nil =>
    intro cands cands2 res h
    rw [addition_fold, Prod.mk.injEq] at h
    obtain ⟨h1, h2⟩ := h
    subst h1
    refine ⟨fun j hj => hj, fun nc vi hr => ?_⟩
    rw [← h2] at hr
    exact absurd hr (by simp)
  | cons e rest ih =>
    intro cands cands2 res h
    rw [addition_fold] at h
    split at h
    · rename_i data htry
      rw [Prod.mk.injEq] at h
      obtain ⟨h1, h2⟩ := h
      subst h1
      refine ⟨fun j hj => hj, fun nc vi hr => ?_⟩
      rw [← h2, Option.some_inj] at hr
      exact ⟨e, List.mem_cons_self e rest, by rw [htry, hr]⟩
    · have hrec := ih (cands.filter (fun j => !job_eq j e.1)) cands2 res h
      refine ⟨fun j hj => contains_job_filter_le (hrec.1 j hj), fun nc vi hr => ?_⟩
      obtain ⟨e2, he2, ht2⟩ := hrec.2 nc vi hr
      exact ⟨e2, List.mem_cons_of_mem e he2, ht2⟩

/-- The grow loop of `build_job_cluster` preserves its cluster invariant:
the composed jobs stay pairwise distinct, every composed job is the center or
one of the initial candidates, and the first visit info never changes. -/
theorem grow_cluster_spec (merge : ConstraintPipeline) (estimates : Estimates)
    (config : ClusterConfig) (chk : CheckInsertionFn)
    (rm : ClusterInfo → (ℚ × ℚ) × (ℚ × ℚ))
    (hpres : merge_preserves_cluster merge)
    (hwfl : ∀ lj index, lookup_job estimates lj = some index →
      ∀ d ∈ index, ∀ i ∈ d.2, i.2.2.job.tag = d.1.tag)
    (center : Job) (cands0 : List Job) (head0 : ClusterInfo) :
    ∀ (fuel : Nat) (cluster last_job : Job) (lpi : PlaceIndex) (count : Nat)
      (cands : List Job),
      ((cluster_infos cluster).map (fun i => i.job)).Pairwise (fun a b => a.tag ≠ b.tag) →
      (∀ j ∈ (cluster_infos cluster).map (fun i => i.job), contains_job cands j = false) →
      (∀ j ∈ (cluster_infos cluster).map (fun i => i.job),
        j.tag = center.tag ∨ contains_job cands0 j = true) →
      (∀ j, contains_job cands j = true → contains_job cands0 j = true) →
      (cluster_infos cluster).head? = some head0 →
      (((cluster_infos (grow_cluster merge estimates config chk rm fuel cluster last_job lpi
          count cands).1).map (fun i => i.job)).Pairwise (fun a b => a.tag ≠ b.tag)
        ∧ (∀ j ∈ (cluster_infos (grow_cluster merge estimates config chk rm fuel cluster
            last_job lpi count cands).1).map (fun i => i.job),
          j.tag = center.tag ∨ contains_job cands0 j = true)
        ∧ (cluster_infos (grow_cluster merge estimates config chk rm fuel cluster last_job lpi
            count cands).1).head? = some head0) := by
  intro fuel
  induction fuel with
  | zero =>
    intro cluster last_job lpi count cands h1 h2 h3 h4 h5
    exact ⟨h1, h3, h5⟩
  | succ fuel ih =>
    intro cluster last_job lpi count cands h1 h2 h3 h4 h5
    rw [grow_cluster]
    by_cases hne : cands.isEmpty
    · rw [if_pos hne]
      exact ⟨h1, h3, h5⟩
    · rw [if_neg hne]
      dsimp only
      rcases hadd : addition_fold merge lpi cluster config rm chk
          (sort_by_cmp (fun a b => config.building.ordering_local a.2.2 b.2.2)
            (((lookup_job estimates last_job).toList.flatMap
              (fun index => index.filter (fun e => contains_job cands e.1))).filterMap
              (fun estimate =>
                ((get_cluster_info_sorted lpi estimate true
                  config.building.ordering_local).head?).map
                  (fun visit_info => (estimate.1, estimate.2, visit_info)))))
          cands with ⟨cands2, res⟩
      rw [hadd]
      cases res with
      | none => exact ⟨h1, h3, h5⟩
      | some data =>
        obtain ⟨nc, vi⟩ := data
        dsimp only
        obtain ⟨hsub, hex⟩ := addition_fold_spec merge lpi cluster config rm chk _ _ _ _ hadd
        obtain ⟨e, he, htry⟩ := hex nc vi rfl
        rw [mem_sort_by_cmp, List.mem_filterMap] at he
        obtain ⟨estimate, hest, hmap⟩ := he
        rw [Option.map_eq_some'] at hmap
        obtain ⟨vi0, _, he_eq⟩ := hmap
        rw [List.mem_flatMap] at hest
        obtain ⟨index, hindex, hest2⟩ := hest
        rw [Option.mem_toList, Option.mem_def] at hindex
        have hest_mem : estimate ∈ index := List.mem_of_mem_filter hest2
        have hest_cand : contains_job cands estimate.1 = true := by
          have := List.of_mem_filter hest2
          exact this
        have he1 : e.1 = estimate.1 := by rw [← he_eq]
        have he21 : e.2.1 = estimate.2 := by rw [← he_eq]
        rw [he1, he21] at htry
        obtain ⟨hdim, d, hd, htag⟩ :=
          try_add_job_cluster_dim merge lpi cluster (estimate.1, estimate.2) config rm chk
            nc vi hpres htry
        have htag2 : vi.job.tag = estimate.1.tag := by
          rw [htag, hwfl last_job index hindex estimate hest_mem d hd]
        have hvi_cand : contains_job cands vi.job = true := by
          rw [contains_job_tag_congr cands htag2]
          exact hest_cand
        have hinfos : cluster_infos (with_cluster_dimension nc vi)
            = cluster_infos cluster ++ [vi] := by
          rw [cluster_infos_with_dimension]
          unfold cluster_infos
          rw [hdim]
        apply ih
        · rw [hinfos, List.map_append, List.map_cons, List.map_nil, List.pairwise_append]
          refine ⟨h1, by simp, ?_⟩
          intro a ha b hb
          rw [List.mem_singleton] at hb
          subst hb
          intro hab
          have : contains_job cands a = true := by
            rw [contains_job_tag_congr cands hab]
            exact hvi_cand
          rw [h2 a ha] at this
          exact absurd this (by simp)
        · rw [hinfos, List.map_append, List.map_cons, List.map_nil]
          intro j hj
          rw [List.mem_append] at hj
          rcases hj with hj | hj
          · rw [← Bool.not_eq_true]
            intro hc
            have := hsub j (contains_job_filter_le hc)
            rw [h2 j hj] at this
            exact absurd this (by simp)
          · rw [List.mem_singleton] at hj
            subst hj
            exact contains_job_filter_ne_self cands2 vi.job
        · rw [hinfos, List.map_append, List.map_cons, List.map_nil]
          intro j hj
          rw [List.mem_append] at hj
          rcases hj with hj | hj
          · exact h3 j hj
          · rw [List.mem_singleton] at hj
            subst hj
            exact Or.inr (h4 vi.job hvi_cand)
        · intro j hj
          exact h4 j (hsub j (contains_job_filter_le hj))
        · rw [hinfos]
          exact head?_append_of_eq_some h5

/-- An invariant carried through an early-exit fold: if every step preserves
it on both the continue and the break side, it holds of the collapsed
result. -/
theorem foldlM_except_inv {α β : Type} (f : β → α → Except β β) (P : β → Prop) :
    ∀ (l : List α) (init : β), P init →
      (∀ b a, a ∈ l → P b →
        (∀ r, f b a = Except.ok r → P r) ∧ (∀ r, f b a = Except.error r → P r)) →
      P (unwrap_from_result (l.foldlM f init)) := by
  intro l
  induction l with
  | nil =>
    intro init hinit _
    exact hinit
  | cons a l ih =>
    intro init hinit hstep
    rw [List.foldlM_cons]
    cases hf : f init a with
    | ok b =>
      exact ih b ((hstep init a (List.mem_cons_self a l) hinit).1 b hf)
        (fun b2 a2 ha2 hb2 => hstep b2 a2 (List.mem_cons_of_mem a ha2) hb2)
    | error b =>
      exact (hstep init a (List.mem_cons_self a l) hinit).2 b hf

/-- A place info produced by `map_place` records an actual place of the job:
its index resolves to a place whose location is set, and it carries that
place's duration and filtered time windows. -/
theorem mem_map_place {places : List Place} {pi : PlaceInfo}
    (h : pi ∈ places.enum.filterMap map_place) :
    ∃ pl, places[pi.1]? = some pl ∧ pl.location = some pi.2.1
      ∧ pi.2.2.1 = pl.duration ∧ pi.2.2.2 = filter_times pl.times := by
  rw [List.mem_filterMap] at h
  obtain ⟨⟨i, pl⟩, henum, hmp⟩ := h
  unfold map_place at hmp
  rw [Option.map_eq_some'] at hmp
  obtain ⟨loc, hloc, hpi⟩ := hmp
  obtain ⟨hlen, hx⟩ := List.mem_enum henum
  subst hpi
  exact ⟨pl, by rw [List.getElem?_eq_getElem hlen, ← hx], hloc, rfl, rfl⟩

/-- A member of the initial candidate set of a cluster build is one of the
center's estimate keys and is not used. -/
theorem mem_build_candidates {center_estimates : DissimilarityIndex} {used : List Job}
    {x : Job}
    (h : x ∈ center_estimates.filterMap (fun e => if contains_job used e.1 then none
        else if e.2.any (fun d => d.1) then some e.1 else none)) :
    ∃ e ∈ center_estimates, x = e.1 ∧ contains_job used e.1 = false := by
  rw [List.mem_filterMap] at h
  obtain ⟨e, he, heq⟩ := h
  split at heq
  · exact absurd heq (by simp)
  · rename_i hused
    split at heq
    · rw [Option.some_inj] at heq
      exact ⟨e, he, heq.symm, by simpa using hused⟩
    · exact absurd heq (by simp)

/-- The cluster grown around one center place satisfies the build
invariant's properties. -/
theorem build_place_cluster_spec (merge : ConstraintPipeline) (estimates : Estimates)
    (used : List Job) (config : ClusterConfig) (chk : CheckInsertionFn) (center : Job)
    (center_estimates : DissimilarityIndex) (a : PlaceInfo)
    (hpres : merge_preserves_cluster merge)
    (hwfl : ∀ lj index, lookup_job estimates lj = some index →
      ∀ d ∈ index, ∀ i ∈ d.2, i.2.2.job.tag = d.1.tag)
    (hwfne : ∀ d ∈ center_estimates, d.1.tag ≠ center.tag)
    (hdim0 : center.dimens.cluster.isNone = true)
    (ha : a ∈ center.places.enum.filterMap map_place) :
    (((cluster_infos (build_place_cluster merge estimates used config chk center
        center_estimates a).1).map (fun i => i.job)).Pairwise (fun a b => a.tag ≠ b.tag))
    ∧ (∀ j ∈ (cluster_infos (build_place_cluster merge estimates used config chk center
        center_estimates a).1).map (fun i => i.job),
      j.tag = center.tag ∨ contains_job used j = false)
    ∧ (∃ cpi p rest, center.places[cpi]? = some p
        ∧ cluster_infos (build_place_cluster merge estimates used config chk center
          center_estimates a).1 = ⟨center, p.duration, cpi, (0, 0), (0, 0)⟩ :: rest) := by
  unfold build_place_cluster
  dsimp only
  have hdimnone : center.dimens.cluster = none := Option.isNone_iff_eq_none.mp hdim0
  have hcands : ∀ x, x ∈ center_estimates.filterMap (fun e =>
      if contains_job used e.1 then none
      else if e.2.any (fun d => d.1) then some e.1 else none) →
      x.tag ≠ center.tag ∧ contains_job used x = false := by
    intro x hx
    obtain ⟨e, he, hxe, hused⟩ := mem_build_candidates hx
    subst hxe
    exact ⟨hwfne e he, hused⟩
  have hinit : cluster_infos (with_cluster_dimension
      (create_single_job (some a.2.1) a.2.2.1 a.2.2.2 center.dimens)
      ⟨center, a.2.2.1, a.1, (0, 0), (0, 0)⟩) = [⟨center, a.2.2.1, a.1, (0, 0), (0, 0)⟩] := by
    rw [cluster_infos_with_dimension, cluster_infos_create_single, hdimnone]
    rfl
  have hgrow := grow_cluster_spec merge estimates config chk
    (return_movement_fn estimates center a.1) hpres hwfl center
    (center_estimates.filterMap (fun e =>
      if contains_job used e.1 then none
      else if e.2.any (fun d => d.1) then some e.1 else none))
    ⟨center, a.2.2.1, a.1, (0, 0), (0, 0)⟩
    ((center_estimates.filterMap (fun e =>
      if contains_job used e.1 then none
      else if e.2.any (fun d => d.1) then some e.1 else none)).length + 1)
    (with_cluster_dimension (create_single_job (some a.2.1) a.2.2.1 a.2.2.2 center.dimens)
      ⟨center, a.2.2.1, a.1, (0, 0), (0, 0)⟩)
    center a.1 1
    (center_estimates.filterMap (fun e =>
      if contains_job used e.1 then none
      else if e.2.any (fun d => d.1) then some e.1 else none))
    (by rw [hinit]; simp)
    (by
      rw [hinit]
      intro j hj
      rw [List.map_cons, List.map_nil, List.mem_singleton] at hj
      subst hj
      rw [contains_job_eq_false_iff]
      intro x hx
      exact (hcands x hx).1)
    (by
      rw [hinit]
      intro j hj
      rw [List.map_cons, List.map_nil, List.mem_singleton] at hj
      subst hj
      exact Or.inl rfl)
    (fun j hj => hj)
    (by rw [hinit]; rfl)
  have hfin : cluster_infos (if (grow_cluster merge estimates config chk
        (return_movement_fn estimates center a.1)
        ((center_estimates.filterMap (fun e =>
          if contains_job used e.1 then none
          else if e.2.any (fun d => d.1) then some e.1 else none)).length + 1)
        (with_cluster_dimension (create_single_job (some a.2.1) a.2.2.1 a.2.2.2 center.dimens)
          ⟨center, a.2.2.1, a.1, (0, 0), (0, 0)⟩)
        center a.1 1
        (center_estimates.filterMap (fun e =>
          if contains_job used e.1 then none
          else if e.2.any (fun d => d.1) then some e.1 else none))).2 > 1
      then finish_cluster (grow_cluster merge estimates config chk
        (return_movement_fn estimates center a.1)
        ((center_estimates.filterMap (fun e =>
          if contains_job used e.1 then none
          else if e.2.any (fun d => d.1) then some e.1 else none)).length + 1)
        (with_cluster_dimension (create_single_job (some a.2.1) a.2.2.1 a.2.2.2 center.dimens)
          ⟨center, a.2.2.1, a.1, (0, 0), (0, 0)⟩)
        center a.1 1
        (center_estimates.filterMap (fun e =>
          if contains_job used e.1 then none
          else if e.2.any (fun d => d.1) then some e.1 else none))).1 config
        (return_movement_fn estimates center a.1)
      else (grow_cluster merge estimates config chk
        (return_movement_fn estimates center a.1)
        ((center_estimates.filterMap (fun e =>
          if contains_job used e.1 then none
          else if e.2.any (fun d => d.1) then some e.1 else none)).length + 1)
        (with_cluster_dimension (create_single_job (some a.2.1) a.2.2.1 a.2.2.2 center.dimens)
          ⟨center, a.2.2.1, a.1, (0, 0), (0, 0)⟩)
        center a.1 1
        (center_estimates.filterMap (fun e =>
          if contains_job used e.1 then none
          else if e.2.any (fun d => d.1) then some e.1 else none))).1)
      = cluster_infos (grow_cluster merge estimates config chk
        (return_movement_fn estimates center a.1)
        ((center_estimates.filterMap (fun e =>
          if contains_job used e.1 then none
          else if e.2.any (fun d => d.1) then some e.1 else none)).length + 1)
        (with_cluster_dimension (create_single_job (some a.2.1) a.2.2.1 a.2.2.2 center.dimens)
          ⟨center, a.2.2.1, a.1, (0, 0), (0, 0)⟩)
        center a.1 1
        (center_estimates.filterMap (fun e =>
          if contains_job used e.1 then none
          else if e.2.any (fun d => d.1) then some e.1 else none))).1 := by
    split
    · rw [cluster_infos_finish]
    · rfl
  rw [hfin]
  obtain ⟨hg1, hg2, hg3⟩ := hgrow
  refine ⟨hg1, ?_, ?_⟩
  · intro j hj
    rcases hg2 j hj with hc | hc
    · exact Or.inl hc
    · right
      rw [contains_job_iff] at hc
      obtain ⟨x, hx, htag⟩ := hc
      rw [← contains_job_tag_congr used htag]
      exact (hcands x hx).2
  · obtain ⟨rest, hrest⟩ := List.head?_eq_some_iff.mp hg3
    obtain ⟨pl, hpl, _, hdur, _⟩ := mem_map_place ha
    exact ⟨a.1, pl, rest, hpl, by rw [hrest, hdur]⟩

/-- One step of the per-place fold preserves the build invariant, on both
the continue and the early-exit side. -/
theorem build_place_step_inv (merge : ConstraintPipeline) (estimates : Estimates)
    (used : List Job) (config : ClusterConfig) (chk : CheckInsertionFn) (center : Job)
    (center_estimates : DissimilarityIndex)
    (hpres : merge_preserves_cluster merge)
    (hwfl : ∀ lj index, lookup_job estimates lj = some index →
      ∀ d ∈ index, ∀ i ∈ d.2, i.2.2.job.tag = d.1.tag)
    (hwfne : ∀ d ∈ center_estimates, d.1.tag ≠ center.tag)
    (hdim0 : center.dimens.cluster.isNone = true)
    (b : Option (Job × Nat)) (a : PlaceInfo)
    (ha : a ∈ center.places.enum.filterMap map_place)
    (hb : build_inv center used b) :
    (∀ r, build_place_step merge estimates used config chk center center_estimates b a
        = Except.ok r → build_inv center used r)
    ∧ (∀ r, build_place_step merge estimates used config chk center center_estimates b a
        = Except.error r → build_inv center used r) := by
  have hbc := build_place_cluster_spec merge estimates used config chk center
    center_estimates a hpres hwfl hwfne hdim0 ha
  suffices hmain : ∀ r,
      (build_place_step merge estimates used config chk center center_estimates b a
        = Except.ok r
      ∨ build_place_step merge estimates used config chk center center_estimates b a
        = Except.error r) → build_inv center used r by
    exact ⟨fun r h => hmain r (Or.inl h), fun r h => hmain r (Or.inr h)⟩
  intro r hr
  unfold build_place_step at hr
  dsimp only at hr
  have hsome : ∀ n, build_inv center used
      (some ((build_place_cluster merge estimates used config chk center
        center_estimates a).1, n)) := by
    intro n c2 n2 heq
    rw [Option.some_inj, Prod.mk.injEq] at heq
    obtain ⟨h1, _⟩ := heq
    subst h1
    exact hbc
  rcases b with _ | ⟨jb, nb⟩
  · dsimp only at hr
    by_cases hc : (build_place_cluster merge estimates used config chk center
        center_estimates a).2 > 1
    · rw [if_pos hc] at hr
      dsimp only at hr
      by_cases ht : (!(config.building.threshold (build_place_cluster merge estimates used
          config chk center center_estimates a).1)) = true
      · rw [if_pos ht] at hr
        rcases hr with hr | hr
        · exact absurd hr (by simp)
        · rw [Except.error.injEq] at hr
          subst hr
          exact hsome _
      · rw [if_neg ht] at hr
        rcases hr with hr | hr
        · rw [Except.ok.injEq] at hr
          subst hr
          exact hsome _
        · exact absurd hr (by simp)
    · rw [if_neg hc] at hr
      dsimp only at hr
      rcases hr with hr | hr
      · rw [Except.ok.injEq] at hr
        subst hr
        intro c2 n2 h
        exact absurd h (by simp)
      · exact absurd hr (by simp)
  · dsimp only at hr
    by_cases hc : nb < (build_place_cluster merge estimates used config chk center
        center_estimates a).2
    · rw [if_pos hc] at hr
      dsimp only at hr
      by_cases ht : (!(config.building.threshold (build_place_cluster merge estimates used
          config chk center center_estimates a).1)) = true
      · rw [if_pos ht] at hr
        rcases hr with hr | hr
        · exact absurd hr (by simp)
        · rw [Except.error.injEq] at hr
          subst hr
          exact hsome _
      · rw [if_neg ht] at hr
        rcases hr with hr | hr
        · rw [Except.ok.injEq] at hr
          subst hr
          exact hsome _
        · exact absurd hr (by simp)
    · rw [if_neg hc] at hr
      dsimp only at hr
      by_cases ht : (!(config.building.threshold jb)) = true
      · rw [if_pos ht] at hr
        rcases hr with hr | hr
        · exact absurd hr (by simp)
        · rw [Except.error.injEq] at hr
          subst hr
          exact hb
      · rw [if_neg ht] at hr
        rcases hr with hr | hr
        · rw [Except.ok.injEq] at hr
          subst hr
          exact hb
        · exact absurd hr (by simp)

/-- A cluster built by `build_job_cluster` has pairwise-distinct composed
jobs, each of them the center itself or unused, and its cluster dimension
starts with the center's zero-movement visit info for one of the center's
own places. -/
theorem build_job_cluster_spec (merge : ConstraintPipeline) (estimates : Estimates)
    (used : List Job) (config : ClusterConfig) (chk : CheckInsertionFn) (center : Job)
    (hpres : merge_preserves_cluster merge)
    (hwfl : ∀ lj index, lookup_job estimates lj = some index →
      ∀ d ∈ index, ∀ i ∈ d.2, i.2.2.job.tag = d.1.tag)
    (hwfne : ∀ d ∈ (lookup_job estimates center).getD [], d.1.tag ≠ center.tag)
    (hdim0 : center.dimens.cluster.isNone = true)
    (c : Job) (hc : build_job_cluster merge center estimates used config chk = some c) :
    ((cluster_infos c).map (fun i => i.job)).Pairwise (fun a b => a.tag ≠ b.tag)
    ∧ (∀ j ∈ (cluster_infos c).map (fun i => i.job),
        j.tag = center.tag ∨ contains_job used j = false)
    ∧ (∃ cpi p rest, center.places[cpi]? = some p
        ∧ cluster_infos c = ⟨center, p.duration, cpi, (0, 0), (0, 0)⟩ :: rest) := by
  unfold build_job_cluster at hc
  dsimp only at hc
  rw [Option.map_eq_some'] at hc
  obtain ⟨pair, hpair, hc1⟩ := hc
  subst hc1
  have hinv := foldlM_except_inv
    (build_place_step merge estimates used config chk center
      ((lookup_job estimates center).getD []))
    (build_inv center used)
    (center.places.enum.filterMap map_place)
    none
    (fun c2 n2 h => absurd h (by simp))
    (fun b a ha hb => build_place_step_inv merge estimates used config chk center
      ((lookup_job estimates center).getD []) hpres hwfl hwfne hdim0 b a ha hb)
  rw [hpair] at hinv
  exact hinv pair.1 pair.2 rfl

/-- `rebuild_slot` keeps the center. -/
theorem rebuild_slot_fst (merge : ConstraintPipeline) (estimates : Estimates)
    (used : List Job) (config : ClusterConfig) (chk : CheckInsertionFn)
    (e : Job × (Option Job × List Job)) :
    (rebuild_slot merge estimates used config chk e).1 = e.1 := by
  unfold rebuild_slot
  cases e.2.1 <;> rfl

/-- A filled slot after `rebuild_slot` is the cached cluster or a fresh
build. -/
theorem rebuild_slot_cluster (merge : ConstraintPipeline) (estimates : Estimates)
    (used : List Job) (config : ClusterConfig) (chk : CheckInsertionFn)
    (e : Job × (Option Job × List Job)) (c : Job)
    (h : (rebuild_slot merge estimates used config chk e).2.1 = some c) :
    e.2.1 = some c ∨ build_job_cluster merge e.1 estimates used config chk = some c := by
  unfold rebuild_slot at h
  cases hs : e.2.1 with
  | some c0 =>
    rw [hs] at h
    dsimp only at h
    exact Or.inl h
  | none =>
    rw [hs] at h
    dsimp only at h
    exact Or.inr h

/-- The main loop of `get_clusters` preserves its invariant: the returned
sequence has pairwise-distinct composed jobs overall and every returned
cluster has the committed shape. -/
theorem clusters_loop_spec (merge : ConstraintPipeline) (estimates : Estimates)
    (config : ClusterConfig) (chk : CheckInsertionFn)
    (hpres : merge_preserves_cluster merge)
    (hwfl : ∀ lj index, lookup_job estimates lj = some index →
      ∀ d ∈ index, ∀ i ∈ d.2, i.2.2.job.tag = d.1.tag)
    (hwfne : ∀ center index, lookup_job estimates center = some index →
      ∀ d ∈ index, d.1.tag ≠ center.tag) :
    ∀ (fuel : Nat) (used : List Job) (state : List (Job × (Option Job × List Job)))
      (acc : List (Job × List Job)),
      loop_inv used state acc →
      (((clusters_loop merge estimates config chk fuel used state acc).flatMap
        (fun e => e.2)).Pairwise (fun a b => a.tag ≠ b.tag)
      ∧ ∀ p ∈ clusters_loop merge estimates config chk fuel used state acc,
        committed_shape p) := by
  intro fuel
  induction fuel with
  | zero =>
    intro used state acc hinv
    exact ⟨hinv.1, fun p hp => hinv.2.2.1 p hp⟩
  | succ fuel ih =>
    intro used state acc hinv
    obtain ⟨hA, hB, hC, hD, hE, hF⟩ := hinv
    have hbuilt : ∀ e ∈ build_phase merge estimates used config chk state,
        contains_job used e.1 = false ∧ e.1.dimens.cluster.isNone = true
        ∧ ∀ c, e.2.1 = some c → slot_inv used e.1 c := by
      intro e he
      rw [build_phase, parallel_foreach_mut, List.mem_map] at he
      obtain ⟨e0, he0, heq⟩ := he
      subst heq
      rw [rebuild_slot_fst]
      refine ⟨hD e0 he0, hE e0 he0, ?_⟩
      intro c hcc
      rcases rebuild_slot_cluster merge estimates used config chk e0 c hcc with hold | hnew
      · exact hF e0 he0 c hold
      · have hne2 : ∀ d ∈ (lookup_job estimates e0.1).getD [], d.1.tag ≠ e0.1.tag := by
          cases hl : lookup_job estimates e0.1 with
          | none => simp
          | some idx =>
            intro d hd
            exact hwfne e0.1 idx hl d hd
        have hspec := build_job_cluster_spec merge estimates used config chk e0.1 hpres hwfl
          hne2 (hE e0 he0) c hnew
        refine ⟨hspec.1, ?_, hspec.2.2⟩
        intro j hj
        rcases hspec.2.1 j hj with htag | hn
        · rw [contains_job_tag_congr used htag]
          exact hD e0 he0
        · exact hn
    rw [clusters_loop]
    cases hhead : ((sort_by_cmp
        (fun a b => config.building.ordering_global (b.1, b.2.2) (a.1, a.2.2))
        (build_phase merge estimates used config chk state)).head?.bind
        (fun e => e.2.1)) with
    | none => exact ⟨hA, fun p hp => hC p hp⟩
    | some nc =>
      dsimp only
      rw [Option.bind_eq_some] at hhead
      obtain ⟨e, hh1, hh2⟩ := hhead
      obtain ⟨tail, htail⟩ := List.head?_eq_some_iff.mp hh1
      have hemem : e ∈ build_phase merge estimates used config chk state := by
        rw [← mem_sort_by_cmp
          (fun a b => config.building.ordering_global (b.1, b.2.2) (a.1, a.2.2)), htail]
        exact List.mem_cons_self e tail
      obtain ⟨heused, hedim, heslot⟩ := hbuilt e hemem
      obtain ⟨hP, hU, cpi, pl, rest, hpl, hinfos⟩ := heslot nc hh2
      apply ih
      refine ⟨?_, ?_, ?_, ?_, ?_, ?_⟩
      · rw [List.flatMap_append]
        rw [show ([(nc, (cluster_infos nc).map (fun i => i.job))].flatMap (fun e => e.2))
            = (cluster_infos nc).map (fun i => i.job) from by simp]
        rw [List.pairwise_append]
        refine ⟨hA, hP, ?_⟩
        intro a ha b hb hab
        have hbu : contains_job used b = false := hU b hb
        rw [← contains_job_tag_congr used hab, hB a ha] at hbu
        exact absurd hbu (by simp)
      · intro j hj
        rw [List.flatMap_append] at hj
        rw [contains_job_append]
        rcases List.mem_append.mp hj with hj | hj
        · rw [hB j hj]
          rfl
        · have : j ∈ (cluster_infos nc).map (fun i => i.job) := by simpa using hj
          rw [contains_job_of_mem this]
          simp
      · intro p hp
        rcases List.mem_append.mp hp with hp | hp
        · exact hC p hp
        · rw [List.mem_singleton] at hp
          subst hp
          exact ⟨⟨e.1, pl.duration, cpi, (0, 0), (0, 0)⟩, rest, hinfos, rfl, rfl,
            ⟨pl, hpl, rfl⟩, rfl⟩
      · intro e2 he2
        rw [List.mem_filter] at he2
        obtain ⟨he2m, _⟩ := he2
        rw [List.mem_map] at he2m
        obtain ⟨e0, he0, heq⟩ := he2m
        have he0f := List.of_mem_filter he0
        rw [← heq]
        dsimp only
        simpa using he0f
      · intro e2 he2
        rw [List.mem_filter] at he2
        obtain ⟨he2m, _⟩ := he2
        rw [List.mem_map] at he2m
        obtain ⟨e0, he0, heq⟩ := he2m
        have he0s : e0 ∈ build_phase merge estimates used config chk state := by
          rw [← mem_sort_by_cmp
            (fun a b => config.building.ordering_global (b.1, b.2.2) (a.1, a.2.2))]
          exact List.mem_of_mem_filter he0
        rw [← heq]
        dsimp only
        exact (hbuilt e0 he0s).2.1
      · intro e2 he2 c hc2
        rw [List.mem_filter] at he2
        obtain ⟨he2m, _⟩ := he2
        rw [List.mem_map] at he2m
        obtain ⟨e0, he0, heq⟩ := he2m
        have he0s : e0 ∈ build_phase merge estimates used config chk state := by
          rw [← mem_sort_by_cmp
            (fun a b => config.building.ordering_global (b.1, b.2.2) (a.1, a.2.2))]
          exact List.mem_of_mem_filter he0
        rw [← heq] at hc2
        dsimp only at hc2
        split at hc2
        · exact absurd hc2 (by simp)
        · rename_i hnotaff
          obtain ⟨hP0, hU0, hhead0⟩ := (hbuilt e0 he0s).2.2 c hc2
          rw [← heq]
          dsimp only
          refine ⟨hP0, ?_, hhead0⟩
          intro j hj
          rw [List.mem_map] at hj
          obtain ⟨i, hi, hij⟩ := hj
          subst hij
          rw [hc2] at hnotaff
          have : ((cluster_infos c).any (fun i => contains_job
              (used ++ (cluster_infos nc).map (fun i => i.job)) i.job)) = false := by
            simpa using hnotaff
          rw [List.any_eq_false] at this
          exact Bool.not_eq_true _ ▸ this i hi

/-- A `lookup_job` hit is a map entry with the key's identity. -/
theorem lookup_job_mem {V : Type} {m : List (Job × V)} {j : Job} {v : V}
    (h : lookup_job m j = some v) : ∃ e ∈ m, e.1.tag = j.tag ∧ e.2 = v := by
  unfold lookup_job at h
  rw [Option.map_eq_some'] at h
  obtain ⟨pr, hfind, hv⟩ := h
  refine ⟨pr, List.mem_of_find?_eq_some hfind, ?_, hv⟩
  have := List.find?_some hfind
  simpa [job_eq, beq_iff_eq] using this

/-- On a well-formed estimates map, with a cluster-dimension-preserving
pipeline merge, `get_clusters` returns clusters whose composed jobs are
globally pairwise distinct and which all have the committed shape. -/
theorem get_clusters_spec (merge : ConstraintPipeline) (estimates : Estimates)
    (config : ClusterConfig) (chk : CheckInsertionFn)
    (hwf : wf_estimates estimates) (hpres : merge_preserves_cluster merge) :
    (((get_clusters merge estimates config chk).flatMap (fun e => e.2)).Pairwise
      (fun a b => a.tag ≠ b.tag))
    ∧ ∀ p ∈ get_clusters merge estimates config chk, committed_shape p := by
  have hwfl : ∀ lj index, lookup_job estimates lj = some index →
      ∀ d ∈ index, ∀ i ∈ d.2, i.2.2.job.tag = d.1.tag := by
    intro lj index hl d hd i hi
    obtain ⟨e, he, _, hev⟩ := lookup_job_mem hl
    exact (hwf.1 e he d (hev ▸ hd)).1 i hi
  have hwfne : ∀ center index, lookup_job estimates center = some index →
      ∀ d ∈ index, d.1.tag ≠ center.tag := by
    intro center index hl d hd
    obtain ⟨e, he, het, hev⟩ := lookup_job_mem hl
    rw [← het]
    exact (hwf.1 e he d (hev ▸ hd)).2
  apply clusters_loop_spec merge estimates config chk hpres hwfl hwfne
  refine ⟨by simp, by simp, by simp, ?_, ?_, ?_⟩
  · intro e _
    rfl
  · intro e he
    unfold init_estimates at he
    rw [List.mem_map] at he
    obtain ⟨e0, he0, heq⟩ := he
    rw [← heq]
    exact hwf.2 e0 he0
  · intro e he c hc
    unfold init_estimates at he
    rw [List.mem_map] at he
    obtain ⟨e0, _, heq⟩ := he
    rw [← heq] at hc
    exact absurd hc (by simp)

/-- C6: across the sequence returned by `get_clusters` — on a well-formed
estimates map (as produced by `get_jobs_dissimilarities`) and with a
pipeline merge that preserves the source's cluster dimension — every job
appears in at most one composed-jobs list and never twice in the same list:
the concatenation of all composed-jobs lists is pairwise distinct by job
identity. -/
theorem c6_composed_jobs_unique (merge : ConstraintPipeline) (estimates : Estimates)
    (config : ClusterConfig) (chk : CheckInsertionFn)
    (hwf : wf_estimates estimates) (hpres : merge_preserves_cluster merge) :
    ((get_clusters merge estimates config chk).flatMap (fun e => e.2)).Pairwise
      (fun a b => a.tag ≠ b.tag) :=
  (get_clusters_spec merge estimates config chk hwf hpres).1

/-- C6 witness: on the two-job estimates `esAB` the single returned cluster
composes `jA` and `jB`, and the theorem applies. -/
theorem c6_composed_jobs_unique_witness :
    wf_estimates esAB
    ∧ ((get_clusters mergeOk esAB cfgW chkOk).flatMap (fun e => e.2)).map Job.tag = [1, 2]
    ∧ ((get_clusters mergeOk esAB cfgW chkOk).flatMap (fun e => e.2)).Pairwise
      (fun a b => a.tag ≠ b.tag) :=
  ⟨by unfold wf_estimates; decide
    , by with_unfolding_all rfl,
    c6_composed_jobs_unique mergeOk esAB cfgW chkOk (by unfold wf_estimates; decide)
      (fun s c m h => by cases h; rfl)⟩

/-- C10: every cluster job returned by `get_clusters` — under the same
well-formedness and merge hypotheses — carries a non-empty cluster-info
dimension whose first entry records the center job itself, with zero forward
and backward movement and the service time of the center place it was built
from, and the center job is the first element of the composed-jobs list. -/
theorem c10_cluster_records_center (merge : ConstraintPipeline) (estimates : Estimates)
    (config : ClusterConfig) (chk : CheckInsertionFn)
    (hwf : wf_estimates estimates) (hpres : merge_preserves_cluster merge) :
    ∀ p ∈ get_clusters merge estimates config chk,
      ∃ info rest, cluster_infos p.1 = info :: rest
        ∧ info.forward = (0, 0) ∧ info.backward = (0, 0)
        ∧ (∃ pl, info.job.places[info.place_idx]? = some pl
            ∧ info.service_time = pl.duration)
        ∧ p.2 = (cluster_infos p.1).map (fun i => i.job)
        ∧ p.2.head? = some info.job := by
  intro p hp
  obtain ⟨info, rest, h1, h2, h3, h4, h5⟩ :=
    (get_clusters_spec merge estimates config chk hwf hpres).2 p hp
  refine ⟨info, rest, h1, h2, h3, h4, h5, ?_⟩
  rw [h5, h1]
  rfl

/-- C10 witness: the theorem applied to the single cluster returned on
`esAB`, whose head composed job is the center `jA`. -/
theorem c10_cluster_records_center_witness :
    ((get_clusters mergeOk esAB cfgW chkOk).headD (jA, [])
        ∈ get_clusters mergeOk esAB cfgW chkOk)
    ∧ (∃ info rest,
        cluster_infos ((get_clusters mergeOk esAB cfgW chkOk).headD (jA, [])).1
          = info :: rest
        ∧ info.forward = (0, 0) ∧ info.backward = (0, 0)
        ∧ (∃ pl, info.job.places[info.place_idx]? = some pl
            ∧ info.service_time = pl.duration)
        ∧ ((get_clusters mergeOk esAB cfgW chkOk).headD (jA, [])).2
          = (cluster_infos ((get_clusters mergeOk esAB cfgW chkOk).headD (jA, [])).1).map
            (fun i => i.job)
        ∧ ((get_clusters mergeOk esAB cfgW chkOk).headD (jA, [])).2.head?
          = some info.job) := by
  have hmem : (get_clusters mergeOk esAB cfgW chkOk).headD (jA, [])
      ∈ get_clusters mergeOk esAB cfgW chkOk := by
    cases hres : get_clusters mergeOk esAB cfgW chkOk with
    | nil =>
      have : (get_clusters mergeOk esAB cfgW chkOk).length = 1 := by
        with_unfolding_all rfl
      rw [hres] at this
      exact absurd this (by simp)
    | cons x t =>
      exact List.mem_cons_self x t
  exact ⟨hmem, c10_cluster_records_center mergeOk esAB cfgW chkOk (by unfold wf_estimates; decide)
    (fun s c m h => by cases h; rfl) _ hmem⟩
